import Mathlib

/-!
Verification development for the Che URL Shortener backend (`backend/main.go`).

The Go program is shallowly embedded: the package-level slice `urls` becomes a
Lean list of `URLRecord`s, each HTTP handler becomes a pure function from the
store and the request-relevant inputs to the new store and a response, and the
nondeterministic environment (random draws of the code generator, the current
time, success of the file write, success of JSON response encoding) is passed
in explicitly.  Machine strings are modelled at the Unicode-scalar level
(Go strings that reach the store are JSON-decoded and hence valid UTF-8).
`usage_count` (a Go `int`) is modelled as an unbounded `Int`; wrap-around at
2^63 is not modelled since no claim exercises counts of that size, and the
JSON round-trip theorem carries the explicit int64 range side condition that
Go's decoder enforces.
-/

/-- FR001: the fixed 50-entry adjective list (`adjectives` in `main.go`). -/
def adjectives : List String :=
  ["quick", "lazy", "sleepy", "noisy", "hungry", "brave", "bright", "calm", "eager", "fancy",
   "gentle", "happy", "jolly", "kind", "lively", "merry", "nice", "proud", "silly", "witty",
   "clever", "dizzy", "grumpy", "lucky", "mighty", "plucky", "shiny", "tiny", "zany", "breezy",
   "bubbly", "cheery", "comfy", "cozy", "crispy", "curly", "fluffy", "fuzzy", "gloomy", "groovy",
   "hazy", "icy", "jazzy", "jumpy", "quirky", "snappy", "sunny", "tasty", "vibey", "zippy"]

/-- FR001: the fixed 50-entry noun list (`nouns` in `main.go`). -/
def nouns : List String :=
  ["fox", "dog", "cat", "mouse", "bird", "wolf", "lion", "tiger", "bear", "frog",
   "fish", "shark", "whale", "squid", "crab", "snake", "lizard", "gecko", "newt", "otter",
   "seal", "duck", "goose", "swan", "crow", "raven", "owl", "hawk", "eagle", "pigeon",
   "robin", "finch", "sparrow", "horse", "pony", "donkey", "mule", "cow", "bull", "pig",
   "sheep", "goat", "llama", "alpaca", "camel", "koala", "panda", "sloth", "lemur", "hippo"]

/-- The persisted entity `URLRecord` of `main.go` (struct with JSON tags
`short_code`, `long_url`, `created_at`, `usage_count`). -/
structure URLRecord where
  shortCode : String
  longURL : String
  createdAt : String
  usageCount : Int
deriving DecidableEq, Repr

/-- The in-memory collection: the package-level slice `urls`. -/
abbrev Store := List URLRecord

/- ### Small string utilities mirroring the Go `strings` package -/

/-- Go's `strings.HasPrefix s pre` over character lists. -/
def goStartsWith : List Char → List Char → Bool
  | _, [] => true
  | [], _ :: _ => false
  | c :: s, p :: ps => c == p && goStartsWith s ps

/-- Go's `strings.TrimPrefix(p, "/")`: drop one leading slash if present. -/
def stripLeadingSlash : List Char → List Char
  | '/' :: r => r
  | p => p

/-- Go's `strings.Cut s sep` for a one-character separator: text before the first
occurrence and text after it (the whole string and `[]` when absent). -/
def cutAtFirst (sep : Char) : List Char → List Char × List Char
  | [] => ([], [])
  | c :: rest =>
    if c = sep then ([], rest)
    else
      let p := cutAtFirst sep rest
      (c :: p.1, p.2)

/-- Index of the last occurrence of `c`, if any (`strings.LastIndex`). -/
def lastIndexOf (c : Char) (s : List Char) : Option Nat :=
  match s with
  | [] => none
  | a :: rest =>
    match lastIndexOf c rest with
    | some i => some (i + 1)
    | none => if a = c then some 0 else none

/-- Index of the first occurrence of the substring `pat` (`strings.Index`). -/
def firstIndexOfSub (pat : List Char) : List Char → Option Nat
  | [] => if pat = [] then some 0 else none
  | c :: rest =>
    if goStartsWith (c :: rest) pat then some 0
    else (firstIndexOfSub pat rest).map (· + 1)

/-- ASCII lower-casing of one character (`strings.ToLower` restricted to the
ASCII range; URL schemes produced by `getScheme` are ASCII only). -/
def asciiLower (c : Char) : Char :=
  if 'A' ≤ c ∧ c ≤ 'Z' then Char.ofNat (c.toNat + 32) else c

/- ### Model of `net/url.ParseRequestURI` (Go standard library)

`createURLHandler` validates request URLs with `url.ParseRequestURI`, which is
`parse(rawURL, viaRequest := true)` in `net/url`.  The functions below mirror
that code path.  Percent-decoding is byte-level in Go; the model keeps the raw
text of path/host/userinfo (no claim depends on the decoded bytes) but
reproduces the validation, which decides parse success. -/

/-- Mirror of `stringContainsCTLByte`: a control byte anywhere makes parsing fail.  At
the character level a multi-byte UTF-8 sequence has no byte below 0x20. -/
def containsCTL (s : List Char) : Bool :=
  s.any fun c => c.toNat < 0x20 || c.toNat == 0x7f

def isAlphaChar (c : Char) : Bool :=
  ('a' ≤ c && c ≤ 'z') || ('A' ≤ c && c ≤ 'Z')

def isDigitChar (c : Char) : Bool :=
  '0' ≤ c && c ≤ '9'

/-- Outcome of `net/url.getScheme`'s scan. -/
inductive SchemeScan where
  | noScheme
  | schemeErr
  | found (scheme rest : List Char)

/-- The byte loop of `net/url.getScheme`; `acc` holds the characters scanned
so far (so `acc = []` exactly at position 0). -/
def getSchemeLoop (acc : List Char) : List Char → SchemeScan
  | [] => .noScheme
  | c :: rest =>
    if isAlphaChar c then getSchemeLoop (acc ++ [c]) rest
    else if isDigitChar c || c == '+' || c == '-' || c == '.' then
      if acc = [] then .noScheme else getSchemeLoop (acc ++ [c]) rest
    else if c = ':' then
      if acc = [] then .schemeErr else .found acc rest
    else .noScheme

/-- Mirror of `net/url.getScheme`: `none` is the "missing protocol scheme" error;
`some ([], s)` means no scheme was present. -/
def getScheme (s : List Char) : Option (List Char × List Char) :=
  match getSchemeLoop [] s with
  | .noScheme => some ([], s)
  | .schemeErr => none
  | .found sc rest => some (sc, rest)

/-- The query split of `net/url.parse`: `HasSuffix(rest, "?")` with no other
`?` sets ForceQuery; otherwise `Cut` at the first `?`. -/
def splitQuery (rest : List Char) : List Char × List Char × Bool :=
  if rest.getLast? = some '?' ∧ rest.dropLast.all (· ≠ '?') then
    (rest.dropLast, [], true)
  else
    let p := cutAtFirst '?' rest
    (p.1, p.2, false)

def isHexChar (c : Char) : Bool :=
  isDigitChar c || ('a' ≤ c && c ≤ 'f') || ('A' ≤ c && c ≤ 'F')

/-- Numeric value of a hex digit (`unhex` in `net/url`). -/
def hexValNat (c : Char) : Nat :=
  if isDigitChar c then c.toNat - 48
  else if 'a' ≤ c && c ≤ 'f' then c.toNat - 87
  else if 'A' ≤ c && c ≤ 'F' then c.toNat - 55
  else 0

/-- Mirror of `shouldEscape(c, encodeHost)` for an ASCII byte value: true means the raw
byte is not allowed in a host. -/
def shouldEscapeHostByte (b : Nat) : Bool :=
  if (97 ≤ b && b ≤ 122) || (65 ≤ b && b ≤ 90) || (48 ≤ b && b ≤ 57) then false
  else if b ∈ ['!'.toNat, '$'.toNat, '&'.toNat, '\''.toNat, '('.toNat, ')'.toNat,
               '*'.toNat, '+'.toNat, ','.toNat, ';'.toNat, '='.toNat, ':'.toNat,
               '['.toNat, ']'.toNat, '<'.toNat, '>'.toNat, '"'.toNat] then false
  else if b ∈ ['-'.toNat, '_'.toNat, '.'.toNat, '~'.toNat] then false
  else true

/-- The validation part of `net/url.unescape(s, encodeHost)`: well-formed
percent triplets, sub-0x80 escapes only as `%25`, and no raw ASCII byte that
`shouldEscape` rejects for hosts. -/
def unescapeOKHost : List Char → Bool
  | [] => true
  | '%' :: a :: b :: rest =>
    isHexChar a && isHexChar b &&
    (!(hexValNat a < 8) || (a = '2' && b = '5')) &&
    unescapeOKHost rest
  | '%' :: _ => false
  | c :: rest =>
    !(c.toNat < 0x80 && shouldEscapeHostByte c.toNat) && unescapeOKHost rest

/-- The validation part of `net/url.unescape(s, encodeZone)`. -/
def unescapeOKZone : List Char → Bool
  | [] => true
  | '%' :: a :: b :: rest =>
    isHexChar a && isHexChar b &&
    ((a = '2' && b = '5') || (16 * hexValNat a + hexValNat b == 0x20) ||
      !shouldEscapeHostByte (16 * hexValNat a + hexValNat b)) &&
    unescapeOKZone rest
  | '%' :: _ => false
  | c :: rest =>
    !(c.toNat < 0x80 && shouldEscapeHostByte c.toNat) && unescapeOKZone rest

/-- The validation part of `net/url.unescape` in the path / user-password
modes: only percent-triplet well-formedness can fail. -/
def escOKPlain : List Char → Bool
  | [] => true
  | '%' :: a :: b :: rest => isHexChar a && isHexChar b && escOKPlain rest
  | '%' :: _ => false
  | _ :: rest => escOKPlain rest

/-- Mirror of `net/url.validOptionalPort`. -/
def validOptionalPort : List Char → Bool
  | [] => true
  | ':' :: digits => digits.all isDigitChar
  | _ => false

/-- Mirror of `net/url.validUserinfo` (rune loop; any non-listed rune fails). -/
def validUserinfo (s : List Char) : Bool :=
  s.all fun c =>
    isAlphaChar c || isDigitChar c ||
    c ∈ ['-', '.', '_', ':', '~', '!', '$', '&', '\'', '(', ')',
         '*', '+', ',', ';', '=', '%', '@']

/-- Mirror of `net/url.parseHost`; returns the (raw) host text on success. -/
def parseHost (h : List Char) : Option String :=
  if goStartsWith h ['['] then
    match lastIndexOf ']' h with
    | none => none
    | some i =>
      if !validOptionalPort (h.drop (i + 1)) then none
      else
        match firstIndexOfSub ['%', '2', '5'] (h.take i) with
        | some z =>
          if unescapeOKHost (h.take z) && unescapeOKZone ((h.take i).drop z) &&
             unescapeOKHost (h.drop i) then some (String.mk h) else none
        | none => if unescapeOKHost h then some (String.mk h) else none
  else
    match lastIndexOf ':' h with
    | some i =>
      if !validOptionalPort (h.drop i) then none
      else if unescapeOKHost h then some (String.mk h) else none
    | none => if unescapeOKHost h then some (String.mk h) else none

/-- Mirror of `net/url.parseAuthority`: split at the last `@`, validate host then
userinfo.  Returns the raw userinfo (if any) and the host. -/
def parseAuthority (a : List Char) : Option (Option String × String) :=
  match lastIndexOf '@' a with
  | none =>
    match parseHost a with
    | some h => some (none, h)
    | none => none
  | some i =>
    let ui := a.take i
    let hostPart := a.drop (i + 1)
    match parseHost hostPart with
    | none => none
    | some h =>
      if !validUserinfo ui then none
      else if ui.all (· ≠ ':') then
        if escOKPlain ui then some (some (String.mk ui), h) else none
      else
        let p := cutAtFirst ':' ui
        if escOKPlain p.1 && escOKPlain p.2 then some (some (String.mk ui), h)
        else none

/-- The result of a successful `net/url` parse (the fields of `url.URL` the
claims mention; path, host and userinfo are kept as raw text, see above). -/
structure GoURL where
  scheme : String := ""
  opq : String := ""
  user : Option String := none
  host : String := ""
  pathRaw : String := ""
  rawQuery : String := ""
  forceQuery : Bool := false
  omitHost : Bool := false
deriving DecidableEq, Repr

/-- Mirror of `net/url.parse(rawURL, viaRequest := true)`, i.e. `url.ParseRequestURI`. -/
def goParseRequestURI (s : List Char) : Option GoURL :=
  if containsCTL s then none
  else if s = [] then none
  else if s = ['*'] then some { pathRaw := "*" }
  else
    match getScheme s with
    | none => none
    | some (sc, rest0) =>
      let scheme := sc.map asciiLower
      let q := splitQuery rest0
      let rest := q.1
      if ¬ goStartsWith rest ['/'] then
        if scheme ≠ [] then
          some { scheme := String.mk scheme, opq := String.mk rest,
                 rawQuery := String.mk q.2.1, forceQuery := q.2.2 }
        else none
      else
        if scheme ≠ [] && goStartsWith rest ['/', '/'] then
          let afterSS := rest.drop 2
          let authority :=
            match firstIndexOfSub ['/'] afterSS with
            | some i => afterSS.take i
            | none => afterSS
          let restPath :=
            match firstIndexOfSub ['/'] afterSS with
            | some i => afterSS.drop i
            | none => []
          match parseAuthority authority with
          | none => none
          | some uh =>
            if escOKPlain restPath then
              some { scheme := String.mk scheme, user := uh.1, host := uh.2,
                     pathRaw := String.mk restPath,
                     rawQuery := String.mk q.2.1, forceQuery := q.2.2 }
            else none
        else
          if escOKPlain rest then
            some { scheme := String.mk scheme, pathRaw := String.mk rest,
                   rawQuery := String.mk q.2.1, forceQuery := q.2.2,
                   omitHost := scheme ≠ [] }
          else none

/-- Holds when `url.ParseRequestURI(u)` succeeds — the validation used by
`createURLHandler` (`if _, err := url.ParseRequestURI(reqBody.URL); err != nil`). -/
def parseRequestURIOk (u : String) : Bool :=
  (goParseRequestURI u.data).isSome

/- ### The HTTP surface: requests, responses, environment -/

/-- Response bodies the service produces. -/
inductive HBody where
  | jsonKV (key val : String)
  | jsonRecords (rs : List URLRecord)
  | redirectNote
  | fromStatic
deriving DecidableEq, Repr

/-- An HTTP response: status, optional `Location` header, body. -/
structure HResponse where
  status : Nat
  location : Option String := none
  body : HBody
deriving DecidableEq, Repr

/-- Mirror of `writeJSONError(w, message, status)`. -/
def errorResponse (message : String) (status : Nat) : HResponse :=
  { status := status, body := .jsonKV "error" message }

/-- One inbound request: its method, `r.URL.Path`, and the result of decoding
its body as `{url: string}` (`none` = the JSON decode in `createURLHandler`
fails; `some u` = it succeeds with `reqBody.URL = u`, which is `""` when the
field is absent or empty). -/
structure GoRequest where
  method : String
  path : String
  body : Option String
deriving DecidableEq, Repr

/-- The nondeterministic environment of one request: the successive pairs
returned by `rand.Intn(len(adjectives))`/`rand.Intn(len(nouns))` offered to
the generator loop, the value of `time.Now().UTC().Format(time.RFC3339)`,
whether `os.WriteFile` in `saveURLs` succeeds, and whether the JSON encode of
the list response to the wire succeeds. -/
structure Env where
  draws : List (Nat × Nat)
  now : String
  saveOk : Bool
  encodeOk : Bool
deriving DecidableEq, Repr

/- ### Code generator (the loop in `createURLHandler`, lines 124-141) -/

/-- One candidate code from a pair of random indices:
`fmt.Sprintf("%s-%s", adjectives[i], nouns[j])`. -/
def sampleCode (d : Nat × Nat) : String :=
  adjectives.getD d.1 "" ++ "-" ++ nouns.getD d.2 ""

/-- The inner uniqueness scan: `record.ShortCode == code` for some record. -/
def containsCode (st : Store) (code : String) : Bool :=
  st.any fun r => r.shortCode == code

/-- The retry loop, driven by the draw stream: keep sampling while the
candidate is already present; `none` means the supplied draws were exhausted
without finding a free code (the Go loop would still be running). -/
def genCode (st : Store) : List (Nat × Nat) → Option String
  | [] => none
  | d :: ds =>
    let code := sampleCode d
    if containsCode st code then genCode st ds else some code

/- ### Handlers -/

/-- Mirror of `createURLHandler` (POST /api/urls).  Here `none` models non-termination of the
generator loop (no response is ever written and the store stays locked). -/
def createURLHandler (st : Store) (body : Option String) (env : Env) :
    Option (Store × HResponse) :=
  match body with
  | none => some (st, errorResponse "Invalid request body" 400)
  | some u =>
    if u = "" then some (st, errorResponse "URL is required" 400)
    else if ¬ parseRequestURIOk u then
      some (st, errorResponse "Invalid URL format" 400)
    else
      match genCode st env.draws with
      | none => none
      | some code =>
        let st' := st ++ [{ shortCode := code, longURL := u,
                            createdAt := env.now, usageCount := 0 }]
        if env.saveOk then
          some (st', { status := 201, body := .jsonKV "short_code" code })
        else
          some (st', errorResponse "Failed to save URL record" 500)

/-- Mirror of `getURLsHandler` (GET /api/urls): encodes a copy of the slice; on encode
failure it attempts `writeJSONError` with status 500.  It never writes the
backing file. -/
def getURLsHandler (st : Store) (env : Env) : Store × HResponse :=
  if env.encodeOk then (st, { status := 200, body := .jsonRecords st })
  else (st, errorResponse "Failed to encode URL list" 500)

/-- The redirect scan of `rootHandler`: find the first record whose
`ShortCode` equals the candidate, increment its `UsageCount`, and report its
`LongURL`; `none` when no record matches (`found` stays false). -/
def incrementFirst : Store → String → Option (Store × String)
  | [], _ => none
  | r :: rs, code =>
    if r.shortCode = code then
      some ({ r with usageCount := r.usageCount + 1 } :: rs, r.longURL)
    else
      match incrementFirst rs code with
      | some p => some (r :: p.1, p.2)
      | none => none

/-- The API path prefix checked by `rootHandler`. -/
def apiPrefix : List Char := '/' :: 'a' :: 'p' :: 'i' :: '/' :: 'u' :: 'r' :: 'l' :: 's' :: []

/-- Mirror of `rootHandler(staticFileServer)`: priority routing over one request.  Here `fb`
is the response the static file server would produce for this request (404
when no asset matches the path), and `none` models a create whose generator
loop never terminates.  `http.Redirect` is modelled as setting `Location` to
the target string as passed; Go's net/http additionally normalizes
scheme-less relative targets and percent-escapes non-ASCII bytes, which no
claim here depends on (stored long URLs of interest are absolute ASCII). -/
def rootHandler (fb : HResponse) (st : Store) (req : GoRequest) (env : Env) :
    Option (Store × HResponse) :=
  if goStartsWith req.path.data apiPrefix then
    if req.method = "GET" then some (getURLsHandler st env)
    else if req.method = "POST" then createURLHandler st req.body env
    else some (st, errorResponse "Method Not Allowed" 405)
  else
    let code := String.mk (stripLeadingSlash req.path.data)
    if code ≠ "" then
      match incrementFirst st code with
      | some p =>
        if env.saveOk then
          some (p.1, { status := 302, location := some p.2, body := .redirectNote })
        else
          some (p.1, errorResponse "Failed to update URL data" 500)
      | none => some (st, fb)
    else some (st, fb)

/- ### Reachable states and create runs -/

/-- States reachable from a fresh store (the file created as `[]` at boot)
by any sequence of handled requests. -/
inductive Reachable : Store → Prop
  | init : Reachable []
  | step {st st' : Store} (fb : HResponse) (req : GoRequest) (env : Env)
      (resp : HResponse) (h : Reachable st)
      (hstep : rootHandler fb st req env = some (st', resp)) : Reachable st'

/-- Inputs of one create request. -/
structure CreateIn where
  body : Option String
  env : Env
deriving Repr

/-- Run a sequence of create requests, collecting the short codes returned in
201 responses.  A create whose generator loop does not terminate stops the
run (the server would hang holding the lock). -/
def createRun : Store → List CreateIn → Store × List String
  | st, [] => (st, [])
  | st, i :: is =>
    match createURLHandler st i.body i.env with
    | none => (st, [])
    | some (st', resp) =>
      let rest := createRun st' is
      match resp with
      | { status := 201, body := .jsonKV "short_code" c, .. } =>
        (rest.1, c :: rest.2)
      | _ => (rest.1, rest.2)

/-- The short codes present in a store. -/
def codesOf (st : Store) : List String := st.map (·.shortCode)

/- ### Persistence: `saveURLs` = `json.MarshalIndent(urls, "", "  ")`

`encoding/json` marshals a struct's fields in declaration order; strings are
quoted with the HTML-escaping writer (escapes `"` `\` control bytes `<` `>`
`&` U+2028 U+2029), ints in decimal.  The functions below reproduce that
output character for character. -/

/-- Decimal digit character (`n < 10`). -/
def digitChar : Nat → Char
  | 0 => '0' | 1 => '1' | 2 => '2' | 3 => '3' | 4 => '4'
  | 5 => '5' | 6 => '6' | 7 => '7' | 8 => '8' | 9 => '9'
  | _ => '*'

/-- Lowercase hex digit character (`n < 16`). -/
def hexDigitChar : Nat → Char
  | 10 => 'a' | 11 => 'b' | 12 => 'c' | 13 => 'd' | 14 => 'e' | 15 => 'f'
  | n => digitChar n

/-- Little-endian decimal digits of a natural number. -/
def natDigitsRev (n : Nat) : List Char :=
  if h : n < 10 then [digitChar n]
  else digitChar (n % 10) :: natDigitsRev (n / 10)
decreasing_by exact Nat.div_lt_self (by omega) (by omega)

/-- Decimal representation (big-endian) of a natural number. -/
def natChars (n : Nat) : List Char := (natDigitsRev n).reverse

/-- Decimal representation of a Go `int` (`strconv.AppendInt`). -/
def intChars (i : Int) : List Char :=
  if i < 0 then '-' :: natChars i.natAbs else natChars i.toNat

/-- The encoding of one rune inside a JSON string as written by
`encoding/json`'s string writer with HTML escaping on. -/
def escapeChar (c : Char) : List Char :=
  if c = '"' then ['\\', '"']
  else if c = '\\' then ['\\', '\\']
  else if c = '\n' then ['\\', 'n']
  else if c = '\r' then ['\\', 'r']
  else if c = '\t' then ['\\', 't']
  else if c.toNat < 0x20 then
    ['\\', 'u', '0', '0', hexDigitChar (c.toNat / 16), hexDigitChar (c.toNat % 16)]
  else if c = '<' then ['\\', 'u', '0', '0', '3', 'c']
  else if c = '>' then ['\\', 'u', '0', '0', '3', 'e']
  else if c = '&' then ['\\', 'u', '0', '0', '2', '6']
  else if c.toNat = 0x2028 then ['\\', 'u', '2', '0', '2', '8']
  else if c.toNat = 0x2029 then ['\\', 'u', '2', '0', '2', '9']
  else [c]

/-- Escape a whole character sequence. -/
def escChars : List Char → List Char
  | [] => []
  | c :: cs => escapeChar c ++ escChars cs

/-- A quoted JSON string literal for `s`. -/
def jstr (s : String) : List Char :=
  '"' :: escChars s.data ++ ['"']

/-- The four spaces of indentation depth 2 used inside an object element. -/
def ind2 : List Char := ['\n', ' ', ' ', ' ', ' ']

/-- One record as `MarshalIndent` lays it out at element depth 1. -/
def marshalRecord (r : URLRecord) : List Char :=
  '{' :: ind2 ++ jstr "short_code" ++ ':' :: ' ' :: jstr r.shortCode ++
  ',' :: ind2 ++ jstr "long_url" ++ ':' :: ' ' :: jstr r.longURL ++
  ',' :: ind2 ++ jstr "created_at" ++ ':' :: ' ' :: jstr r.createdAt ++
  ',' :: ind2 ++ jstr "usage_count" ++ ':' :: ' ' :: intChars r.usageCount ++
  '\n' :: ' ' :: ' ' :: '}' :: []

/-- The comma-separated element list, each element on its own indented line. -/
def elemsChars : List URLRecord → List Char
  | [] => []
  | [r] => '\n' :: ' ' :: ' ' :: marshalRecord r
  | r :: rs => '\n' :: ' ' :: ' ' :: marshalRecord r ++ ',' :: elemsChars rs

/-- Mirror of `json.MarshalIndent(urls, "", "  ")` — the exact bytes `saveURLs` writes
to `urls.json`. -/
def saveJSON : List URLRecord → List Char
  | [] => ['[', ']']
  | r :: rs => '[' :: elemsChars (r :: rs) ++ ['\n', ']']

/- ### Startup parse: `json.Unmarshal(data, &urls)`

The decoder is modelled on the grammar `saveURLs` emits: a JSON array of
objects carrying the four fields in declaration order.  (Go's `Unmarshal` is
more lenient — it accepts reordered or unknown fields and `null` — which is
immaterial for the round-trip property.)  String contents, JSON whitespace,
the full escape set with surrogate pairs, and the int64 range check of the
`usage_count` decode are modelled faithfully. -/

def isJSONWS (c : Char) : Bool :=
  c = ' ' || c = '\t' || c = '\n' || c = '\r'

def skipWS : List Char → List Char
  | c :: rest => if isJSONWS c then skipWS rest else c :: rest
  | [] => []

/-- The simple escape table of the JSON scanner. -/
def simpleEscape : Char → Option Char
  | '"' => some '"'
  | '\\' => some '\\'
  | '/' => some '/'
  | 'b' => some (Char.ofNat 8)
  | 'f' => some (Char.ofNat 12)
  | 'n' => some '\n'
  | 'r' => some '\r'
  | 't' => some '\t'
  | _ => none

/-- Parse the body of a JSON string literal after the opening quote, up to and
including the closing quote; returns the decoded content and the remainder.
Mirrors `encoding/json`'s scanner plus `unquote`: raw control characters are
rejected, `\uXXXX` escapes decode with UTF-16 surrogate-pair handling and
U+FFFD for unpaired surrogates. -/
def parseStringBody : List Char → Option (List Char × List Char)
  | [] => none
  | '"' :: rest => some ([], rest)
  | '\\' :: 'u' :: a :: b :: c :: d :: '\\' :: 'u' :: e :: f :: g :: h :: rest =>
    if isHexChar a && isHexChar b && isHexChar c && isHexChar d then
      if isHexChar e && isHexChar f && isHexChar g && isHexChar h then
        let n := 4096 * hexValNat a + 256 * hexValNat b + 16 * hexValNat c + hexValNat d
        let m := 4096 * hexValNat e + 256 * hexValNat f + 16 * hexValNat g + hexValNat h
        if 0xD800 ≤ n ∧ n < 0xE000 then
          if 0xD800 ≤ n ∧ n < 0xDC00 ∧ 0xDC00 ≤ m ∧ m < 0xE000 then
            (parseStringBody rest).map
              fun (p : List Char × List Char) =>
                (Char.ofNat (0x10000 + (n - 0xD800) * 0x400 + (m - 0xDC00)) :: p.1, p.2)
          else
            (parseStringBody ('\\' :: 'u' :: e :: f :: g :: h :: rest)).map
              fun (p : List Char × List Char) => (Char.ofNat 0xFFFD :: p.1, p.2)
        else
          (parseStringBody ('\\' :: 'u' :: e :: f :: g :: h :: rest)).map
            fun (p : List Char × List Char) => (Char.ofNat n :: p.1, p.2)
      else none
    else none
  | '\\' :: 'u' :: a :: b :: c :: d :: rest =>
    if isHexChar a && isHexChar b && isHexChar c && isHexChar d then
      let n := 4096 * hexValNat a + 256 * hexValNat b + 16 * hexValNat c + hexValNat d
      if 0xD800 ≤ n ∧ n < 0xE000 then
        (parseStringBody rest).map
          fun (p : List Char × List Char) => (Char.ofNat 0xFFFD :: p.1, p.2)
      else
        (parseStringBody rest).map
          fun (p : List Char × List Char) => (Char.ofNat n :: p.1, p.2)
    else none
  | '\\' :: e :: rest =>
    (simpleEscape e).bind fun ch =>
      (parseStringBody rest).map fun (p : List Char × List Char) => (ch :: p.1, p.2)
  | c :: rest =>
    if c.toNat < 0x20 then none
    else (parseStringBody rest).map fun (p : List Char × List Char) => (c :: p.1, p.2)
termination_by s => s.length
decreasing_by all_goals (simp [List.length_cons]; try omega)

/-- Accumulating decimal parse of a maximal digit run. -/
def parseDigitsAux (acc : Nat) : List Char → Nat × List Char
  | c :: rest =>
    if isDigitChar c then parseDigitsAux (acc * 10 + (c.toNat - 48)) rest
    else (acc, c :: rest)
  | [] => (acc, [])

/-- The integer part of a JSON number (`0`, or a nonzero leading digit
followed by more digits); leading zeros are a scanner error in Go. -/
def parseJSONNat : List Char → Option (Nat × List Char)
  | '0' :: c :: rest => if isDigitChar c then none else some (0, c :: rest)
  | ['0'] => some (0, [])
  | c :: rest =>
    if isDigitChar c then some (parseDigitsAux (c.toNat - 48) rest) else none
  | [] => none

/-- A JSON integer, with the int64 range check `strconv.ParseInt` applies when
decoding into the Go `int` field. -/
def parseJSONInt (s : List Char) : Option (Int × List Char) :=
  match s with
  | '-' :: rest =>
    (parseJSONNat rest).bind fun (p : Nat × List Char) =>
      if (p.1 : Int) ≤ 2 ^ 63 then some (-(p.1 : Int), p.2) else none
  | _ =>
    (parseJSONNat s).bind fun (p : Nat × List Char) =>
      if (p.1 : Int) < 2 ^ 63 then some ((p.1 : Int), p.2) else none

/-- Parse `"key" :` (whitespace-insensitively) where `key` is the expected
decoded field name; returns the input after the colon. -/
def parseKeyColon (key : List Char) (s : List Char) : Option (List Char) :=
  match skipWS s with
  | '"' :: rest =>
    match parseStringBody rest with
    | some (k, rest2) =>
      if k = key then
        match skipWS rest2 with
        | ':' :: rest3 => some rest3
        | _ => none
      else none
    | none => none
  | _ => none

/-- Parse a string-valued field `"key": "value"`. -/
def parseStrField (key : List Char) (s : List Char) : Option (String × List Char) :=
  (parseKeyColon key s).bind fun s1 =>
    match skipWS s1 with
    | '"' :: rest => (parseStringBody rest).map fun p => (String.mk p.1, p.2)
    | _ => none

/-- Parse one URLRecord object. -/
def parseRecord (s : List Char) : Option (URLRecord × List Char) :=
  match skipWS s with
  | '{' :: s0 =>
    (parseStrField ('s' :: 'h' :: 'o' :: 'r' :: 't' :: '_' :: 'c' :: 'o' :: 'd' :: 'e' :: []) s0).bind
      fun p1 =>
    match skipWS p1.2 with
    | ',' :: s1 =>
      (parseStrField ('l' :: 'o' :: 'n' :: 'g' :: '_' :: 'u' :: 'r' :: 'l' :: []) s1).bind
        fun p2 =>
      match skipWS p2.2 with
      | ',' :: s2 =>
        (parseStrField ('c' :: 'r' :: 'e' :: 'a' :: 't' :: 'e' :: 'd' :: '_' :: 'a' :: 't' :: []) s2).bind
          fun p3 =>
        match skipWS p3.2 with
        | ',' :: s3 =>
          (parseKeyColon ('u' :: 's' :: 'a' :: 'g' :: 'e' :: '_' :: 'c' :: 'o' :: 'u' :: 'n' :: 't' :: []) s3).bind
            fun s4 =>
          (parseJSONInt (skipWS s4)).bind fun p4 =>
          match skipWS p4.2 with
          | '}' :: s5 =>
            some ({ shortCode := p1.1, longURL := p2.1, createdAt := p3.1,
                    usageCount := p4.1 }, s5)
          | _ => none
        | _ => none
      | _ => none
    | _ => none
  | _ => none

/-- Parse the comma-separated elements of a non-empty array, up to and
including the closing bracket; `fuel` bounds the number of elements. -/
def parseElems : Nat → List Char → Option (List URLRecord × List Char)
  | 0, _ => none
  | fuel + 1, s =>
    (parseRecord s).bind fun p =>
    match skipWS p.2 with
    | ',' :: s1 =>
      (parseElems fuel s1).map fun q => (p.1 :: q.1, q.2)
    | ']' :: s1 => some ([p.1], s1)
    | _ => none

/-- Mirror of `json.Unmarshal(data, &urls)` on the store grammar: the whole input must
be one array with only whitespace after it. -/
def loadJSON (s : List Char) : Option (List URLRecord) :=
  match skipWS s with
  | '[' :: rest =>
    match skipWS rest with
    | ']' :: tail => if (skipWS tail) = [] then some [] else none
    | _ =>
      match parseElems (s.length + 1) rest with
      | some (l, tail) => if (skipWS tail) = [] then some l else none
      | none => none
  | _ => none

/- ### The short-code shape `^[a-z]+-[a-z]+$` -/

def isLowerChar (c : Char) : Bool := 'a' ≤ c && c ≤ 'z'

/-- Maximal lowercase run and the remainder. -/
def scanLower : List Char → List Char × List Char
  | [] => ([], [])
  | c :: rest =>
    if isLowerChar c then
      let p := scanLower rest
      (c :: p.1, p.2)
    else ([], c :: rest)

/-- The regular expression `^[a-z]+-[a-z]+$` as a decision procedure. -/
def matchesCodePattern (s : String) : Bool :=
  let p := scanLower s.data
  match p.2 with
  | '-' :: b => !p.1.isEmpty && !b.isEmpty && b.all isLowerChar
  | _ => false

/-- A word usable in a short code: nonempty, all lowercase letters. -/
def lowerWord (w : String) : Bool :=
  !w.data.isEmpty && w.data.all isLowerChar

/- ### The uniqueness invariant -/

/-- Pairwise-distinct short codes. -/
def distinctCodes (st : Store) : Prop := (codesOf st).Nodup

/- ### Further definitions used by the claims -/

/-- The store after one lookup of `code` (identity when no record matches). -/
def redirectOnce (st : Store) (code : String) : Store :=
  match incrementFirst st code with
  | some p => p.1
  | none => st

/-- The store after `k` successive redirects of `code`. -/
def redirectIterate : Nat → Store → String → Store
  | 0, st, _ => st
  | k + 1, st, code => redirectIterate k (redirectOnce st code) code

/-- A store owning every one of the 2,500 possible adjective-noun pairs. -/
def saturatedStore : Store :=
  (List.range 50).flatMap fun i =>
    (List.range 50).map fun j =>
      { shortCode := sampleCode (i, j), longURL := "", createdAt := "",
        usageCount := 0 }

/-- Claim C8 as stated: the list endpoint's only failure mode is a
persistence (backing-file write) failure, reported as 500. -/
def listFailureIsPersistence : Prop :=
  ∀ (st : Store) (env : Env),
    (getURLsHandler st env).2.status = 500 ↔ env.saveOk = false

/-- Claim C2's validation as stated: the url must parse as a request URI
having both a scheme and a host. -/
def requestURIHasSchemeAndHost (u : String) : Prop :=
  ∃ g, goParseRequestURI u.data = some g ∧ g.scheme ≠ "" ∧ g.host ≠ ""

/-- The value `10^(number of decimal digits of n)`. -/
def pow10 (n : Nat) : Nat :=
  if h : n < 10 then 10 else 10 * pow10 (n / 10)
decreasing_by exact Nat.div_lt_self (by omega) (by omega)

theorem scanLower_all_stop (xs ys : List Char) (hxs : xs.all isLowerChar = true) :
    scanLower (xs ++ '-' :: ys) = (xs, '-' :: ys) := by
  induction xs with
  | nil => simp [scanLower, isLowerChar]
  | cons c rest ih =>
    simp only [List.all_cons, Bool.and_eq_true] at hxs
    simp [scanLower, hxs.1, ih hxs.2]

theorem matchesCodePattern_append (a b : String)
    (ha : lowerWord a = true) (hb : lowerWord b = true) :
    matchesCodePattern (a ++ "-" ++ b) = true := by
  have hdata : (a ++ "-" ++ b).data = a.data ++ '-' :: b.data := by
    simp [String.data_append]
  simp only [lowerWord, Bool.and_eq_true] at ha hb
  simp [matchesCodePattern, hdata, scanLower_all_stop a.data b.data ha.2,
    ha.1, hb.1, hb.2]

theorem adjectives_lowerWords : adjectives.all lowerWord = true := by decide

theorem nouns_lowerWords : nouns.all lowerWord = true := by decide

theorem adjectives_length : adjectives.length = 50 := by decide

theorem nouns_length : nouns.length = 50 := by decide

/-- An in-range sample is an adjective joined to a noun by a hyphen. -/
theorem sampleCode_shape (d : Nat × Nat) (h1 : d.1 < 50) (h2 : d.2 < 50) :
    ∃ a ∈ adjectives, ∃ n ∈ nouns, sampleCode d = a ++ "-" ++ n := by
  refine ⟨adjectives.getD d.1 "", ?_, nouns.getD d.2 "", ?_, rfl⟩
  · have : d.1 < adjectives.length := by rw [adjectives_length]; exact h1
    rw [List.getD_eq_getElem?_getD, List.getElem?_eq_getElem this]
    exact List.getElem_mem this
  · have : d.2 < nouns.length := by rw [nouns_length]; exact h2
    rw [List.getD_eq_getElem?_getD, List.getElem?_eq_getElem this]
    exact List.getElem_mem this

theorem sampleCode_matches (d : Nat × Nat) (h1 : d.1 < 50) (h2 : d.2 < 50) :
    matchesCodePattern (sampleCode d) = true := by
  obtain ⟨a, ha, n, hn, heq⟩ := sampleCode_shape d h1 h2
  rw [heq]
  exact matchesCodePattern_append a n
    (List.all_eq_true.mp adjectives_lowerWords a ha)
    (List.all_eq_true.mp nouns_lowerWords n hn)

/- ### Generator lemmas -/

theorem containsCode_iff (st : Store) (c : String) :
    containsCode st c = true ↔ c ∈ codesOf st := by
  simp only [containsCode, codesOf, List.any_eq_true, List.mem_map, beq_iff_eq]

/-- Whenever the loop terminates it returns a code absent from the store. -/
theorem genCode_fresh (st : Store) (ds : List (Nat × Nat)) (c : String)
    (h : genCode st ds = some c) : containsCode st c = false := by
  induction ds with
  | nil => simp [genCode] at h
  | cons d rest ih =>
    simp only [genCode] at h
    by_cases hc : containsCode st (sampleCode d) = true
    · rw [if_pos hc] at h; exact ih h
    · rw [if_neg hc] at h
      cases h
      exact Bool.eq_false_iff.mpr hc

/-- The code returned comes from one of the offered draws. -/
theorem genCode_mem_draws (st : Store) (ds : List (Nat × Nat)) (c : String)
    (h : genCode st ds = some c) : ∃ d ∈ ds, c = sampleCode d := by
  induction ds with
  | nil => simp [genCode] at h
  | cons d rest ih =>
    simp only [genCode] at h
    by_cases hc : containsCode st (sampleCode d) = true
    · rw [if_pos hc] at h
      obtain ⟨d', hd', he⟩ := ih h
      exact ⟨d', List.mem_cons_of_mem _ hd', he⟩
    · rw [if_neg hc] at h
      cases h
      exact ⟨d, List.mem_cons_self _ _, rfl⟩

/- ### Exhaustive case analysis of the create handler -/

theorem createURLHandler_spec (st : Store) (b : Option String) (env : Env) :
    (b = none ∧
      createURLHandler st b env = some (st, errorResponse "Invalid request body" 400)) ∨
    (b = some "" ∧
      createURLHandler st b env = some (st, errorResponse "URL is required" 400)) ∨
    (∃ u, b = some u ∧ u ≠ "" ∧ parseRequestURIOk u = false ∧
      createURLHandler st b env = some (st, errorResponse "Invalid URL format" 400)) ∨
    (∃ u, b = some u ∧ u ≠ "" ∧ parseRequestURIOk u = true ∧
      genCode st env.draws = none ∧ createURLHandler st b env = none) ∨
    (∃ u c, b = some u ∧ u ≠ "" ∧ parseRequestURIOk u = true ∧
      genCode st env.draws = some c ∧ env.saveOk = true ∧
      createURLHandler st b env =
        some (st ++ [⟨c, u, env.now, 0⟩],
              { status := 201, body := .jsonKV "short_code" c })) ∨
    (∃ u c, b = some u ∧ u ≠ "" ∧ parseRequestURIOk u = true ∧
      genCode st env.draws = some c ∧ env.saveOk = false ∧
      createURLHandler st b env =
        some (st ++ [⟨c, u, env.now, 0⟩],
              errorResponse "Failed to save URL record" 500)) := by
  cases b with
  | none => exact Or.inl ⟨rfl, rfl⟩
  | some u =>
    by_cases hu : u = ""
    · subst hu
      exact Or.inr (Or.inl ⟨rfl, by simp [createURLHandler]⟩)
    · by_cases hv : parseRequestURIOk u = true
      · match hg : genCode st env.draws with
        | none =>
          refine Or.inr (Or.inr (Or.inr (Or.inl ⟨u, rfl, hu, hv, rfl, ?_⟩)))
          simp [createURLHandler, hu, hv, hg]
        | some c =>
          match hs : env.saveOk with
          | true =>
            refine Or.inr (Or.inr (Or.inr (Or.inr (Or.inl ⟨u, c, rfl, hu, hv, rfl, rfl, ?_⟩))))
            simp [createURLHandler, hu, hv, hg, hs]
          | false =>
            refine Or.inr (Or.inr (Or.inr (Or.inr (Or.inr ⟨u, c, rfl, hu, hv, rfl, rfl, ?_⟩))))
            simp [createURLHandler, hu, hv, hg, hs]
      · rw [Bool.not_eq_true] at hv
        refine Or.inr (Or.inr (Or.inl ⟨u, rfl, hu, hv, ?_⟩))
        simp [createURLHandler, hu, hv]

/- ### The redirect scan, characterised -/

theorem incrementFirst_at (pre post : Store) (r : URLRecord) (code : String)
    (hpre : ∀ x ∈ pre, x.shortCode ≠ code) (hr : r.shortCode = code) :
    incrementFirst (pre ++ r :: post) code =
      some (pre ++ { r with usageCount := r.usageCount + 1 } :: post, r.longURL) := by
  induction pre with
  | nil => simp [incrementFirst, hr]
  | cons x xs ih =>
    have hx : x.shortCode ≠ code := hpre x (List.mem_cons_self _ _)
    simp only [List.cons_append, incrementFirst, if_neg hx, List.append_eq]
    rw [ih (fun y hy => hpre y (List.mem_cons_of_mem _ hy))]

theorem incrementFirst_none_of_miss (st : Store) (code : String)
    (h : ∀ x ∈ st, x.shortCode ≠ code) : incrementFirst st code = none := by
  induction st with
  | nil => rfl
  | cons x xs ih =>
    have hx : x.shortCode ≠ code := h x (List.mem_cons_self _ _)
    simp only [incrementFirst, if_neg hx]
    rw [ih (fun y hy => h y (List.mem_cons_of_mem _ hy))]

theorem incrementFirst_miss_of_none (st : Store) (code : String)
    (h : incrementFirst st code = none) : ∀ x ∈ st, x.shortCode ≠ code := by
  induction st with
  | nil => intro x hx; cases hx
  | cons y ys ih =>
    intro x hx
    by_cases hy : y.shortCode = code
    · simp [incrementFirst, hy] at h
    · simp only [incrementFirst, if_neg hy] at h
      cases hif : incrementFirst ys code with
      | some p => rw [hif] at h; cases h
      | none =>
        cases hx with
        | head => exact hy
        | tail _ hmem => exact ih hif x hmem

/-- The scan only changes a usage count: the code sequence is unchanged. -/
theorem incrementFirst_codes (st : Store) (code : String) (p : Store × String)
    (h : incrementFirst st code = some p) : codesOf p.1 = codesOf st := by
  induction st generalizing p with
  | nil => cases h
  | cons x xs ih =>
    by_cases hx : x.shortCode = code
    · simp only [incrementFirst, if_pos hx] at h
      cases h
      simp [codesOf]
    · simp only [incrementFirst, if_neg hx] at h
      cases hrec : incrementFirst xs code with
      | none => rw [hrec] at h; cases h
      | some q =>
        rw [hrec] at h
        cases h
        have hq := ih q hrec
        simp only [codesOf] at hq ⊢
        simp [hq]

theorem distinct_append_fresh (st : Store) (r : URLRecord)
    (hd : distinctCodes st) (hmem : containsCode st r.shortCode = false) :
    distinctCodes (st ++ [r]) := by
  have hni : r.shortCode ∉ codesOf st := fun hc =>
    by rw [(containsCode_iff st r.shortCode).mpr hc] at hmem; cases hmem
  have : codesOf (st ++ [r]) = codesOf st ++ [r.shortCode] := by
    simp [codesOf]
  rw [distinctCodes, this]
  simp only [List.nodup_append, List.nodup_cons, List.not_mem_nil,
    not_false_iff, List.nodup_nil, and_true, true_and]
  exact ⟨hd, fun a ha hb => by
    simp only [List.mem_singleton] at hb
    exact hni (hb ▸ ha)⟩

theorem createURLHandler_preserves_distinct (st : Store) (b : Option String)
    (env : Env) (st' : Store) (r : HResponse)
    (h : createURLHandler st b env = some (st', r)) (hd : distinctCodes st) :
    distinctCodes st' := by
  rcases createURLHandler_spec st b env with
    ⟨_, he⟩ | ⟨_, he⟩ | ⟨u, _, _, _, he⟩ | ⟨u, _, _, _, _, he⟩ |
    ⟨u, c, _, _, _, hg, _, he⟩ | ⟨u, c, _, _, _, hg, _, he⟩ <;>
    rw [he] at h
  · cases h; exact hd
  · cases h; exact hd
  · cases h; exact hd
  · cases h
  · cases h
    exact distinct_append_fresh st _ hd (genCode_fresh st env.draws c hg)
  · cases h
    exact distinct_append_fresh st _ hd (genCode_fresh st env.draws c hg)

theorem rootHandler_preserves_distinct (fb : HResponse) (st : Store)
    (req : GoRequest) (env : Env) (st' : Store) (resp : HResponse)
    (h : rootHandler fb st req env = some (st', resp)) (hd : distinctCodes st) :
    distinctCodes st' := by
  by_cases hapi : goStartsWith req.path.data apiPrefix = true
  · by_cases hget : req.method = "GET"
    · simp only [rootHandler, hapi, if_pos rfl, hget, if_true] at h
      cases henc : env.encodeOk <;>
        simp only [getURLsHandler, henc, Bool.false_eq_true, if_false, if_true] at h <;>
        · cases h; exact hd
    · by_cases hpost : req.method = "POST"
      · simp only [rootHandler, hapi, if_true, hget, if_false, hpost] at h
        exact createURLHandler_preserves_distinct st req.body env st' resp h hd
      · simp only [rootHandler, hapi, if_true, hget, hpost, if_false] at h
        cases h; exact hd
  · simp only [rootHandler, hapi, Bool.false_eq_true, if_false] at h
    by_cases hcode : String.mk (stripLeadingSlash req.path.data) = ""
    · rw [if_neg (by simp [hcode])] at h
      cases h; exact hd
    · rw [if_pos (by simp [hcode])] at h
      cases hinc : incrementFirst st (String.mk (stripLeadingSlash req.path.data)) with
      | none =>
        rw [hinc] at h; cases h; exact hd
      | some p =>
        rw [hinc] at h
        have hcodes := incrementFirst_codes st _ p hinc
        cases hsave : env.saveOk <;> rw [hsave] at h <;>
          simp only [Bool.false_eq_true, if_false, if_true] at h <;>
          · cases h
            rw [distinctCodes, hcodes]
            exact hd

/- ### Character and digit facts -/

theorem char_ofNat_toNat (c : Char) : Char.ofNat c.toNat = c := by
  rcases c with ⟨v, h⟩
  have hv : v.toNat.isValidChar := h
  simp only [Char.toNat, Char.ofNat, hv, dif_pos]
  unfold Char.ofNatAux
  apply Char.ext
  apply UInt32.ext
  simp [UInt32.ofNat, UInt32.ofNat', UInt32.toNat]

theorem digitChar_spec : ∀ n < 10,
    isDigitChar (digitChar n) = true ∧ (digitChar n).toNat - 48 = n ∧
    (digitChar n).toNat = 48 + n := by decide

theorem hexDigitChar_spec : ∀ n < 16,
    isHexChar (hexDigitChar n) = true ∧ hexValNat (hexDigitChar n) = n := by decide

theorem digitChar_ne_dash : ∀ n < 10, digitChar n ≠ '-' := by decide

theorem digitChar_ne_zero : ∀ n, 1 ≤ n → n < 10 → digitChar n ≠ '0' := by decide

/- ### Decimal round trip -/

theorem natChars_lt10 (n : Nat) (h : n < 10) : natChars n = [digitChar n] := by
  rw [natChars, natDigitsRev, dif_pos h]
  rfl

theorem natChars_ge10 (n : Nat) (h : ¬ n < 10) :
    natChars n = natChars (n / 10) ++ [digitChar (n % 10)] := by
  rw [natChars, natDigitsRev, dif_neg h]
  simp [natChars]

theorem parseDigitsAux_stop (acc : Nat) (tail : List Char)
    (h : ∀ c, tail.head? = some c → isDigitChar c = false) :
    parseDigitsAux acc tail = (acc, tail) := by
  cases tail with
  | nil => rfl
  | cons c rest =>
    have := h c rfl
    simp [parseDigitsAux, this]

theorem parseDigitsAux_natChars (n : Nat) : ∀ (acc : Nat) (tail : List Char),
    parseDigitsAux acc (natChars n ++ tail) =
      parseDigitsAux (acc * pow10 n + n) tail := by
  induction n using Nat.strong_induction_on with
  | _ n ih =>
    intro acc tail
    by_cases h : n < 10
    · rw [natChars_lt10 n h]
      obtain ⟨hd, hv, _⟩ := digitChar_spec n h
      simp only [List.cons_append, List.nil_append, parseDigitsAux, hd, if_true, hv]
      rw [pow10, dif_pos h]
      rfl
    · rw [natChars_ge10 n h, List.append_assoc]
      rw [ih (n / 10) (Nat.div_lt_self (by omega) (by omega)) acc]
      have h10 : n % 10 < 10 := Nat.mod_lt _ (by omega)
      obtain ⟨hd, hv, _⟩ := digitChar_spec (n % 10) h10
      simp only [List.cons_append, List.nil_append, parseDigitsAux, hd, if_true, hv]
      have hp : pow10 n = 10 * pow10 (n / 10) := by rw [pow10]; simp [h]
      rw [hp]
      congr 1
      obtain ⟨q, r, hr, hn⟩ : ∃ q r, r < 10 ∧ n = 10 * q + r :=
        ⟨n / 10, n % 10, Nat.mod_lt _ (by omega), (Nat.div_add_mod n 10).symm⟩
      have hq : n / 10 = q := by omega
      have hrm : n % 10 = r := by omega
      rw [hq, hrm, hn]
      ring

theorem natChars_shape (n : Nat) :
    ∃ d ds, natChars n = d :: ds ∧ isDigitChar d = true ∧
      (1 ≤ n → d ≠ '0') ∧ (n = 0 → d = '0' ∧ ds = []) := by
  induction n using Nat.strong_induction_on with
  | _ n ih =>
    by_cases h : n < 10
    · refine ⟨digitChar n, [], natChars_lt10 n h, (digitChar_spec n h).1, ?_, ?_⟩
      · intro h1; exact digitChar_ne_zero n h1 h
      · intro h0; subst h0; exact ⟨rfl, rfl⟩
    · obtain ⟨d, ds, heq, hd, hnz, _⟩ := ih (n / 10) (Nat.div_lt_self (by omega) (by omega))
      refine ⟨d, ds ++ [digitChar (n % 10)], ?_, hd, ?_, ?_⟩
      · rw [natChars_ge10 n h, heq]; rfl
      · intro _; exact hnz (by omega)
      · intro h0; omega

theorem parseJSONNat_cons_ne_zero (d : Char) (rest : List Char)
    (hd : isDigitChar d = true) (hne : d ≠ '0') :
    parseJSONNat (d :: rest) = some (parseDigitsAux (d.toNat - 48) rest) := by
  rw [parseJSONNat.eq_def]
  split
  · rename_i c r heq
    rw [List.cons.injEq] at heq
    exact absurd heq.1 hne
  · rename_i heq
    rw [List.cons.injEq] at heq
    exact absurd heq.1 hne
  · rename_i c r heq
    rw [List.cons.injEq] at heq
    obtain ⟨h1, h2⟩ := heq
    subst h1; subst h2
    rw [if_pos hd]
  · rename_i heq
    cases heq

theorem parseJSONNat_natChars (n : Nat) (tail : List Char)
    (h : ∀ c, tail.head? = some c → isDigitChar c = false) :
    parseJSONNat (natChars n ++ tail) = some (n, tail) := by
  obtain ⟨d, ds, heq, hd, hnz, hzero⟩ := natChars_shape n
  by_cases h0 : n = 0
  · subst h0
    obtain ⟨hdz, hds⟩ := hzero rfl
    rw [heq, hdz, hds]
    cases tail with
    | nil => rfl
    | cons c rest =>
      have hc := h c rfl
      simp [parseJSONNat, hc]
  · have h1 : 1 ≤ n := by omega
    have hdne : d ≠ '0' := hnz h1
    have key : parseDigitsAux 0 ((d :: ds) ++ tail) = (n, tail) := by
      rw [← heq, parseDigitsAux_natChars n 0 tail, Nat.zero_mul, Nat.zero_add]
      exact parseDigitsAux_stop n tail h
    have step : parseDigitsAux 0 ((d :: ds) ++ tail) =
        parseDigitsAux (d.toNat - 48) (ds ++ tail) := by
      simp [parseDigitsAux, hd]
    rw [heq, List.cons_append, parseJSONNat_cons_ne_zero d _ hd hdne, ← step, key]

theorem parseJSONInt_intChars (i : Int) (tail : List Char)
    (hlo : -(2 ^ 63) ≤ i) (hhi : i < 2 ^ 63)
    (h : ∀ c, tail.head? = some c → isDigitChar c = false) :
    parseJSONInt (intChars i ++ tail) = some (i, tail) := by
  by_cases hneg : i < 0
  · rw [intChars, if_pos hneg, List.cons_append]
    have hr := parseJSONNat_natChars i.natAbs tail h
    have habs : ((i.natAbs : Nat) : Int) ≤ 2 ^ 63 := by omega
    simp only [parseJSONInt, hr, Option.some_bind, if_pos habs]
    rw [show (-(i.natAbs : Int)) = i by omega]
  · rw [intChars, if_neg hneg]
    obtain ⟨d, ds, heq, hd, _, _⟩ := natChars_shape i.toNat
    have hdne : d ≠ '-' := by
      intro hdd
      rw [hdd] at hd
      cases hd
    have hr := parseJSONNat_natChars i.toNat tail h
    rw [parseJSONInt.eq_def]
    rw [heq, List.cons_append] at hr ⊢
    split
    · rename_i rest heq2
      rw [List.cons.injEq] at heq2
      exact absurd heq2.1 hdne
    · rename_i hne2
      have hcast : ((i.toNat : Nat) : Int) < 2 ^ 63 := by omega
      rw [hr, Option.some_bind, if_pos hcast, show ((i.toNat : Nat) : Int) = i by omega]

/- ### String-escape round trip -/

theorem parseStringBody_cons_plain (c : Char) (rest : List Char)
    (h1 : c ≠ '"') (h2 : c ≠ '\\') (h3 : ¬ c.toNat < 0x20) :
    parseStringBody (c :: rest) =
      (parseStringBody rest).map fun p => (c :: p.1, p.2) := by
  rw [parseStringBody.eq_def]
  split
  · rename_i heq; cases heq
  · rename_i r heq
    rw [List.cons.injEq] at heq
    exact absurd heq.1 h1
  · rename_i a b cc d e f g h r heq
    rw [List.cons.injEq] at heq
    exact absurd heq.1 h2
  · rename_i a b cc d r heq
    rw [List.cons.injEq] at heq
    exact absurd heq.1 h2
  · rename_i e r heq
    rw [List.cons.injEq] at heq
    exact absurd heq.1 h2
  · rename_i c' r heq
    rw [List.cons.injEq] at heq
    obtain ⟨hcc, hr⟩ := heq
    subst hcc; subst hr
    rw [if_neg h3]

theorem parseStringBody_simple_escape (x : Char) (T : List Char) (hx : x ≠ 'u') :
    parseStringBody ('\\' :: x :: T) =
      (simpleEscape x).bind fun ch =>
        (parseStringBody T).map fun p => (ch :: p.1, p.2) := by
  rw [parseStringBody.eq_def]
  split
  · rename_i heq; cases heq
  · rename_i r heq
    rw [List.cons.injEq] at heq
    exact absurd heq.1 (by decide)
  · rename_i a b cc d e f g h r heq
    rw [List.cons.injEq, List.cons.injEq] at heq
    exact absurd heq.2.1 hx
  · rename_i a b cc d r heq
    rw [List.cons.injEq, List.cons.injEq] at heq
    exact absurd heq.2.1 hx
  · rename_i e r heq
    rw [List.cons.injEq, List.cons.injEq] at heq
    obtain ⟨_, he, hr⟩ := heq
    subst he; subst hr
    rfl
  · rename_i h12 h6 hs heqc
    rw [List.cons.injEq] at heqc
    obtain ⟨hcc, hr⟩ := heqc
    exact (hs x T hcc.symm hr.symm).elim

theorem parseStringBody_u_escape (h1 h2 h3 h4 : Char) (T : List Char)
    (ha : isHexChar h1 = true) (hb : isHexChar h2 = true)
    (hc : isHexChar h3 = true) (hd : isHexChar h4 = true)
    (hns : ¬ (0xD800 ≤ 4096 * hexValNat h1 + 256 * hexValNat h2 + 16 * hexValNat h3 + hexValNat h4 ∧
              4096 * hexValNat h1 + 256 * hexValNat h2 + 16 * hexValNat h3 + hexValNat h4 < 0xE000))
    (htail : ∀ e f g h rest2, T = '\\' :: 'u' :: e :: f :: g :: h :: rest2 →
       (isHexChar e && isHexChar f && isHexChar g && isHexChar h) = true) :
    parseStringBody ('\\' :: 'u' :: h1 :: h2 :: h3 :: h4 :: T) =
      (parseStringBody T).map fun p =>
        (Char.ofNat (4096 * hexValNat h1 + 256 * hexValNat h2 + 16 * hexValNat h3 + hexValNat h4) :: p.1, p.2) := by
  rw [parseStringBody.eq_def]
  split
  · rename_i heq; cases heq
  · rename_i r heq
    rw [List.cons.injEq] at heq
    exact absurd heq.1 (by decide)
  · rename_i a b cc d e f g h r heq
    simp only [List.cons.injEq] at heq
    obtain ⟨_, _, hh1, hh2, hh3, hh4, hT⟩ := heq
    subst hh1; subst hh2; subst hh3; subst hh4
    have hhex2 := htail e f g h r hT
    rw [if_pos (by simp [ha, hb, hc, hd]), if_pos hhex2]
    rw [if_neg hns]
    rw [hT]
  · rename_i a b cc d r heq
    simp only [List.cons.injEq] at heq
    obtain ⟨_, _, hh1, hh2, hh3, hh4, hT⟩ := heq
    subst hh1; subst hh2; subst hh3; subst hh4
    rw [if_pos (by simp [ha, hb, hc, hd]), if_neg hns]
    rw [hT]
  · rename_i hx12 hx6 heq
    simp only [List.cons.injEq] at heq
    obtain ⟨_, he, hr⟩ := heq
    exact (hx6 h1 h2 h3 h4 T he.symm hr.symm).elim
  · rename_i hq h12 h6 hsx heqc
    simp only [List.cons.injEq] at heqc
    obtain ⟨hcq, hrq⟩ := heqc
    exact (hsx 'u' (h1 :: h2 :: h3 :: h4 :: T) hcq.symm hrq.symm).elim

set_option maxHeartbeats 2000000 in
theorem escChars_u_shape (cs rest : List Char) (e f g h : Char) (rest2 : List Char)
    (heq : escChars cs ++ '"' :: rest = '\\' :: 'u' :: e :: f :: g :: h :: rest2) :
    (isHexChar e && isHexChar f && isHexChar g && isHexChar h) = true := by
  cases cs with
  | nil => simp [escChars] at heq
  | cons c cs' =>
    simp only [escChars, escapeChar, List.append_assoc] at heq
    split_ifs at heq with hq hbs hn hr ht hctl hlt hgt hamp h28 h29
    · simp only [List.cons_append, List.cons.injEq] at heq
      exact absurd heq.2.1 (by decide)
    · simp only [List.cons_append, List.cons.injEq] at heq
      exact absurd heq.2.1 (by decide)
    · simp only [List.cons_append, List.cons.injEq] at heq
      exact absurd heq.2.1 (by decide)
    · simp only [List.cons_append, List.cons.injEq] at heq
      exact absurd heq.2.1 (by decide)
    · simp only [List.cons_append, List.cons.injEq] at heq
      exact absurd heq.2.1 (by decide)
    · simp only [List.cons_append, List.nil_append, List.cons.injEq] at heq
      obtain ⟨_, _, he, hf, hg, hh, _⟩ := heq
      have hg16 : c.toNat / 16 < 16 := by omega
      have hh16 : c.toNat % 16 < 16 := by omega
      rw [← he, ← hf, ← hg, ← hh]
      simp only [Bool.and_eq_true]
      exact ⟨⟨⟨by decide, by decide⟩, (hexDigitChar_spec _ hg16).1⟩,
             (hexDigitChar_spec _ hh16).1⟩
    · simp only [List.cons_append, List.nil_append, List.cons.injEq] at heq
      obtain ⟨_, _, he, hf, hg, hh, _⟩ := heq
      rw [← he, ← hf, ← hg, ← hh]
      decide
    · simp only [List.cons_append, List.nil_append, List.cons.injEq] at heq
      obtain ⟨_, _, he, hf, hg, hh, _⟩ := heq
      rw [← he, ← hf, ← hg, ← hh]
      decide
    · simp only [List.cons_append, List.nil_append, List.cons.injEq] at heq
      obtain ⟨_, _, he, hf, hg, hh, _⟩ := heq
      rw [← he, ← hf, ← hg, ← hh]
      decide
    · simp only [List.cons_append, List.nil_append, List.cons.injEq] at heq
      obtain ⟨_, _, he, hf, hg, hh, _⟩ := heq
      rw [← he, ← hf, ← hg, ← hh]
      decide
    · simp only [List.cons_append, List.nil_append, List.cons.injEq] at heq
      obtain ⟨_, _, he, hf, hg, hh, _⟩ := heq
      rw [← he, ← hf, ← hg, ← hh]
      decide
    · simp only [List.cons_append, List.nil_append, List.cons.injEq] at heq
      exact absurd heq.1 hbs

theorem parseStringBody_escChars (cs rest : List Char) :
    parseStringBody (escChars cs ++ '"' :: rest) = some (cs, rest) := by
  induction cs with
  | nil => simp [escChars, parseStringBody]
  | cons c cs' ih =>
    simp only [escChars, List.append_assoc]
    by_cases hq : c = '"'
    · subst hq
      rw [show escapeChar '"' = ['\\', '"'] from rfl]
      simp only [List.cons_append, List.nil_append]
      rw [parseStringBody_simple_escape _ _ (by decide), ih]
      rfl
    · by_cases hbs : c = '\\'
      · subst hbs
        rw [show escapeChar '\\' = ['\\', '\\'] from rfl]
        simp only [List.cons_append, List.nil_append]
        rw [parseStringBody_simple_escape _ _ (by decide), ih]
        rfl
      · by_cases hn : c = '\n'
        · subst hn
          rw [show escapeChar '\n' = ['\\', 'n'] from rfl]
          simp only [List.cons_append, List.nil_append]
          rw [parseStringBody_simple_escape _ _ (by decide), ih]
          rfl
        · by_cases hr : c = '\r'
          · subst hr
            rw [show escapeChar '\x0d' = ['\\', 'r'] from rfl]
            simp only [List.cons_append, List.nil_append]
            rw [parseStringBody_simple_escape _ _ (by decide), ih]
            rfl
          · by_cases ht : c = '\t'
            · subst ht
              rw [show escapeChar '\t' = ['\\', 't'] from rfl]
              simp only [List.cons_append, List.nil_append]
              rw [parseStringBody_simple_escape _ _ (by decide), ih]
              rfl
            · by_cases hctl : c.toNat < 0x20
              · have hesc : escapeChar c =
                    ['\\', 'u', '0', '0', hexDigitChar (c.toNat / 16),
                     hexDigitChar (c.toNat % 16)] := by
                  simp only [escapeChar, if_neg hq, if_neg hbs, if_neg hn, if_neg hr,
                    if_neg ht, if_pos hctl]
                rw [hesc]
                simp only [List.cons_append, List.nil_append]
                have hg16 : c.toNat / 16 < 16 := by omega
                have hh16 : c.toNat % 16 < 16 := by omega
                have hval : 4096 * hexValNat '0' + 256 * hexValNat '0' +
                    16 * hexValNat (hexDigitChar (c.toNat / 16)) +
                    hexValNat (hexDigitChar (c.toNat % 16)) = c.toNat := by
                  rw [(hexDigitChar_spec _ hg16).2, (hexDigitChar_spec _ hh16).2]
                  have h0 : hexValNat '0' = 0 := by decide
                  rw [h0]
                  omega
                rw [parseStringBody_u_escape _ _ _ _ _ (by decide) (by decide)
                  (hexDigitChar_spec _ hg16).1 (hexDigitChar_spec _ hh16).1
                  (by rw [hval]; omega) (escChars_u_shape cs' rest), ih]
                rw [hval, char_ofNat_toNat]
                rfl
              · by_cases hlt : c = '<'
                · subst hlt
                  rw [show escapeChar '<' = ['\\', 'u', '0', '0', '3', 'c'] from rfl]
                  simp only [List.cons_append, List.nil_append]
                  rw [parseStringBody_u_escape _ _ _ _ _ (by decide) (by decide)
                    (by decide) (by decide) (by decide) (escChars_u_shape cs' rest), ih]
                  rfl
                · by_cases hgt : c = '>'
                  · subst hgt
                    rw [show escapeChar '>' = ['\\', 'u', '0', '0', '3', 'e'] from rfl]
                    simp only [List.cons_append, List.nil_append]
                    rw [parseStringBody_u_escape _ _ _ _ _ (by decide) (by decide)
                      (by decide) (by decide) (by decide) (escChars_u_shape cs' rest), ih]
                    rfl
                  · by_cases hamp : c = '&'
                    · subst hamp
                      rw [show escapeChar '&' = ['\\', 'u', '0', '0', '2', '6'] from rfl]
                      simp only [List.cons_append, List.nil_append]
                      rw [parseStringBody_u_escape _ _ _ _ _ (by decide) (by decide)
                        (by decide) (by decide) (by decide) (escChars_u_shape cs' rest), ih]
                      rfl
                    · by_cases h28 : c.toNat = 0x2028
                      · have hesc : escapeChar c = ['\\', 'u', '2', '0', '2', '8'] := by
                          simp only [escapeChar, if_neg hq, if_neg hbs, if_neg hn,
                            if_neg hr, if_neg ht, if_neg hctl, if_neg hlt, if_neg hgt,
                            if_neg hamp, if_pos h28]
                        rw [hesc]
                        simp only [List.cons_append, List.nil_append]
                        rw [parseStringBody_u_escape _ _ _ _ _ (by decide) (by decide)
                          (by decide) (by decide) (by decide) (escChars_u_shape cs' rest), ih]
                        rw [show (4096 * hexValNat '2' + 256 * hexValNat '0' +
                          16 * hexValNat '2' + hexValNat '8') = 0x2028 from by decide,
                          ← h28, char_ofNat_toNat]
                        rfl
                      · by_cases h29 : c.toNat = 0x2029
                        · have hesc : escapeChar c = ['\\', 'u', '2', '0', '2', '9'] := by
                            simp only [escapeChar, if_neg hq, if_neg hbs, if_neg hn,
                              if_neg hr, if_neg ht, if_neg hctl, if_neg hlt, if_neg hgt,
                              if_neg hamp, if_neg h28, if_pos h29]
                          rw [hesc]
                          simp only [List.cons_append, List.nil_append]
                          rw [parseStringBody_u_escape _ _ _ _ _ (by decide) (by decide)
                            (by decide) (by decide) (by decide) (escChars_u_shape cs' rest), ih]
                          rw [show (4096 * hexValNat '2' + 256 * hexValNat '0' +
                            16 * hexValNat '2' + hexValNat '9') = 0x2029 from by decide,
                            ← h29, char_ofNat_toNat]
                          rfl
                        · have hesc : escapeChar c = [c] := by
                            simp only [escapeChar, if_neg hq, if_neg hbs, if_neg hn,
                              if_neg hr, if_neg ht, if_neg hctl, if_neg hlt, if_neg hgt,
                              if_neg hamp, if_neg h28, if_neg h29]
                          rw [hesc]
                          simp only [List.cons_append, List.nil_append]
                          rw [parseStringBody_cons_plain c _ hq hbs hctl, ih]
                          rfl

/- ### Field and record round trip -/

theorem skipWS_not_ws (c : Char) (s : List Char) (h : isJSONWS c = false) :
    skipWS (c :: s) = c :: s := by
  simp [skipWS, h]

theorem skipWS_ind2 (s : List Char) : skipWS (ind2 ++ s) = skipWS s := rfl

theorem string_mk_data (s : String) : String.mk s.data = s := rfl

theorem jstr_eq (s : String) : jstr s = '"' :: (escChars s.data ++ '"' :: []) := rfl

theorem parseKeyColon_of (k : String) (after : List Char) :
    parseKeyColon k.data (jstr k ++ ':' :: after) = some after := by
  have hshape : jstr k ++ ':' :: after = '"' :: (escChars k.data ++ '"' :: ':' :: after) := by
    simp [jstr]
  rw [hshape, parseKeyColon.eq_def, skipWS_not_ws _ _ (by decide)]
  simp [parseStringBody_escChars k.data (':' :: after),
    skipWS_not_ws ':' after (by decide)]

theorem parseKeyColon_ws (k : List Char) (s : List Char) :
    parseKeyColon k (ind2 ++ s) = parseKeyColon k s := by
  rw [parseKeyColon.eq_def, skipWS_ind2, ← parseKeyColon.eq_def]

theorem parseStrField_of (k v : String) (tail : List Char) :
    parseStrField k.data (jstr k ++ ':' :: ' ' :: (jstr v ++ tail)) = some (v, tail) := by
  rw [parseStrField, parseKeyColon_of k (' ' :: (jstr v ++ tail))]
  have hshape : jstr v ++ tail = '"' :: (escChars v.data ++ '"' :: tail) := by
    simp [jstr]
  rw [Option.some_bind]
  rw [show skipWS (' ' :: (jstr v ++ tail)) = skipWS (jstr v ++ tail) from rfl]
  rw [hshape, skipWS_not_ws _ _ (by decide)]
  simp [parseStringBody_escChars v.data tail]

theorem parseStrField_ws (k : List Char) (s : List Char) :
    parseStrField k (ind2 ++ s) = parseStrField k s := by
  rw [parseStrField, parseStrField, parseKeyColon_ws]

theorem digit_not_ws (c : Char) (h : isDigitChar c = true) : isJSONWS c = false := by
  have h1 : c ≠ ' ' := fun he => by subst he; exact absurd h (by decide)
  have h2 : c ≠ '\t' := fun he => by subst he; exact absurd h (by decide)
  have h3 : c ≠ '\n' := fun he => by subst he; exact absurd h (by decide)
  have h4 : c ≠ '\r' := fun he => by subst he; exact absurd h (by decide)
  simp [isJSONWS, h1, h2, h3, h4]

theorem skipWS_intChars (i : Int) (x : List Char) :
    skipWS (intChars i ++ x) = intChars i ++ x := by
  by_cases hneg : i < 0
  · rw [intChars, if_pos hneg, List.cons_append, skipWS_not_ws _ _ (by decide)]
  · rw [intChars, if_neg hneg]
    obtain ⟨d, ds, heq, hd, _, _⟩ := natChars_shape i.toNat
    rw [heq, List.cons_append, skipWS_not_ws _ _ (digit_not_ws d hd)]

theorem key_short_code : ('s' :: 'h' :: 'o' :: 'r' :: 't' :: '_' :: 'c' :: 'o' :: 'd' :: 'e' :: ([] : List Char)) = "short_code".data := rfl

theorem key_long_url : ('l' :: 'o' :: 'n' :: 'g' :: '_' :: 'u' :: 'r' :: 'l' :: ([] : List Char)) = "long_url".data := rfl

theorem key_created_at : ('c' :: 'r' :: 'e' :: 'a' :: 't' :: 'e' :: 'd' :: '_' :: 'a' :: 't' :: ([] : List Char)) = "created_at".data := rfl

theorem key_usage_count : ('u' :: 's' :: 'a' :: 'g' :: 'e' :: '_' :: 'c' :: 'o' :: 'u' :: 'n' :: 't' :: ([] : List Char)) = "usage_count".data := rfl

theorem parseStrField_short_code (v : String) (tail : List Char) :
    parseStrField ('s' :: 'h' :: 'o' :: 'r' :: 't' :: '_' :: 'c' :: 'o' :: 'd' :: 'e' :: [])
      (jstr "short_code" ++ ':' :: ' ' :: (jstr v ++ tail)) = some (v, tail) := by
  rw [key_short_code]
  exact parseStrField_of "short_code" v tail

theorem parseStrField_long_url (v : String) (tail : List Char) :
    parseStrField ('l' :: 'o' :: 'n' :: 'g' :: '_' :: 'u' :: 'r' :: 'l' :: [])
      (jstr "long_url" ++ ':' :: ' ' :: (jstr v ++ tail)) = some (v, tail) := by
  rw [key_long_url]
  exact parseStrField_of "long_url" v tail

theorem parseStrField_created_at (v : String) (tail : List Char) :
    parseStrField ('c' :: 'r' :: 'e' :: 'a' :: 't' :: 'e' :: 'd' :: '_' :: 'a' :: 't' :: [])
      (jstr "created_at" ++ ':' :: ' ' :: (jstr v ++ tail)) = some (v, tail) := by
  rw [key_created_at]
  exact parseStrField_of "created_at" v tail

theorem parseKeyColon_usage_count (after : List Char) :
    parseKeyColon ('u' :: 's' :: 'a' :: 'g' :: 'e' :: '_' :: 'c' :: 'o' :: 'u' :: 'n' :: 't' :: [])
      (jstr "usage_count" ++ ':' :: after) = some after := by
  rw [key_usage_count]
  exact parseKeyColon_of "usage_count" after

theorem parseRecord_marshalRecord (r : URLRecord) (tail : List Char)
    (hlo : -(2 ^ 63) ≤ r.usageCount) (hhi : r.usageCount < 2 ^ 63) :
    parseRecord (marshalRecord r ++ tail) = some (r, tail) := by
  have hshape : marshalRecord r ++ tail =
      '{' :: (ind2 ++ (jstr "short_code" ++ ':' :: ' ' :: (jstr r.shortCode ++
        (',' :: (ind2 ++ (jstr "long_url" ++ ':' :: ' ' :: (jstr r.longURL ++
        (',' :: (ind2 ++ (jstr "created_at" ++ ':' :: ' ' :: (jstr r.createdAt ++
        (',' :: (ind2 ++ (jstr "usage_count" ++ ':' :: ' ' ::
          (intChars r.usageCount ++
            ('\n' :: ' ' :: ' ' :: '}' :: tail)))))))))))))))) := by
    simp [marshalRecord, List.append_assoc]
  rw [hshape, parseRecord.eq_def, skipWS_not_ws _ _ (by decide)]
  simp only [parseStrField_ws, parseStrField_short_code, parseStrField_long_url,
    parseStrField_created_at, Option.some_bind,
    skipWS_not_ws ',' _ (by decide), parseKeyColon_ws, parseKeyColon_usage_count]
  rw [show skipWS (' ' :: (intChars r.usageCount ++ ('\n' :: ' ' :: ' ' :: '}' :: tail))) =
      skipWS (intChars r.usageCount ++ ('\n' :: ' ' :: ' ' :: '}' :: tail)) from rfl,
    skipWS_intChars,
    parseJSONInt_intChars r.usageCount _ hlo hhi (fun c hc => by cases hc; decide)]
  simp only [Option.some_bind]
  rw [show skipWS ('\n' :: ' ' :: ' ' :: '}' :: tail) = '}' :: tail from rfl]
  rfl

/- ### Array round trip -/

theorem parseRecord_ws3 (s : List Char) :
    parseRecord ('\n' :: ' ' :: ' ' :: s) = parseRecord s := by
  rw [parseRecord.eq_def, parseRecord.eq_def,
    show skipWS ('\n' :: ' ' :: ' ' :: s) = skipWS s from rfl]

theorem parseElems_elemsChars (l : List URLRecord) (hne : l ≠ []) :
    ∀ (fuel : Nat) (tail : List Char), l.length ≤ fuel →
    (∀ r ∈ l, -(2 ^ 63) ≤ r.usageCount ∧ r.usageCount < 2 ^ 63) →
    parseElems fuel (elemsChars l ++ '\n' :: ']' :: tail) = some (l, tail) := by
  induction l with
  | nil => exact absurd rfl hne
  | cons r rs ih =>
    intro fuel tail hfuel hrange
    obtain ⟨hlo, hhi⟩ := hrange r (List.mem_cons_self _ _)
    cases fuel with
    | zero => simp at hfuel
    | succ f =>
      cases rs with
      | nil =>
        simp only [elemsChars, List.cons_append, List.append_assoc]
        rw [parseElems, parseRecord_ws3, parseRecord_marshalRecord r _ hlo hhi,
          Option.some_bind,
          show skipWS ('\n' :: ']' :: tail) = ']' :: tail from rfl]
        rfl
      | cons r2 rs' =>
        have hsh : elemsChars (r :: r2 :: rs') =
            '\n' :: ' ' :: ' ' :: marshalRecord r ++ ',' :: elemsChars (r2 :: rs') := rfl
        rw [hsh]
        simp only [List.cons_append, List.append_assoc]
        rw [parseElems, parseRecord_ws3]
        rw [parseRecord_marshalRecord r _ hlo hhi, Option.some_bind,
          skipWS_not_ws ',' _ (by decide)]
        show Option.map (fun q => (r :: q.1, q.2))
            (parseElems f (elemsChars (r2 :: rs') ++ '\n' :: ']' :: tail)) =
          some (r :: r2 :: rs', tail)
        rw [ih (by simp) f tail (by simpa using hfuel)
          (fun x hx => hrange x (List.mem_cons_of_mem _ hx))]
        rfl

theorem elemsChars_length_ge (l : List URLRecord) : l.length ≤ (elemsChars l).length := by
  induction l with
  | nil => simp [elemsChars]
  | cons r rs ih =>
    cases rs with
    | nil => simp [elemsChars]
    | cons r2 rs' =>
      rw [show elemsChars (r :: r2 :: rs') =
          '\n' :: ' ' :: ' ' :: marshalRecord r ++ ',' :: elemsChars (r2 :: rs') from rfl]
      simp only [List.length_cons, List.length_append] at ih ⊢
      omega

theorem loadJSON_saveJSON (l : List URLRecord)
    (hrange : ∀ r ∈ l, -(2 ^ 63) ≤ r.usageCount ∧ r.usageCount < 2 ^ 63) :
    loadJSON (saveJSON l) = some l := by
  cases l with
  | nil => rfl
  | cons r rs =>
    rw [loadJSON.eq_def,
        show saveJSON (r :: rs) = '[' :: (elemsChars (r :: rs) ++ '\n' :: ']' :: []) from rfl,
        skipWS_not_ws '[' _ (by decide)]
    obtain ⟨w, hw⟩ : ∃ w, skipWS (elemsChars (r :: rs) ++ '\n' :: ']' :: []) = '{' :: w := by
      cases rs with
      | nil =>
        obtain ⟨z, hzz⟩ : ∃ z, marshalRecord r = '{' :: z := ⟨_, rfl⟩
        refine ⟨z ++ ('\n' :: ']' :: []), ?_⟩
        rw [show elemsChars [r] = '\n' :: ' ' :: ' ' :: marshalRecord r from rfl, hzz]
        rfl
      | cons r2 rs' =>
        obtain ⟨z, hzz⟩ : ∃ z, marshalRecord r = '{' :: z := ⟨_, rfl⟩
        refine ⟨(z ++ ',' :: elemsChars (r2 :: rs')) ++ ('\n' :: ']' :: []), ?_⟩
        rw [show elemsChars (r :: r2 :: rs') =
            '\n' :: ' ' :: ' ' :: (marshalRecord r ++ ',' :: elemsChars (r2 :: rs')) from rfl,
          hzz]
        rfl
    split
    · rename_i rest heq
      rw [List.cons.injEq] at heq
      obtain ⟨-, hrest⟩ := heq
      subst hrest
      rw [hw]
      split
      · rename_i tail heq2
        rw [List.cons.injEq] at heq2
        exact absurd heq2.1 (by decide)
      · have hfuel : (r :: rs).length ≤
            ('[' :: (elemsChars (r :: rs) ++ '\n' :: ']' :: [])).length + 1 := by
          have := elemsChars_length_ge (r :: rs)
          simp only [List.length_cons, List.length_append] at this ⊢
          omega
        rw [parseElems_elemsChars (r :: rs) (by simp) _ [] hfuel hrange]
        rfl
    · rename_i hexcl heq
      exact (heq (elemsChars (r :: rs) ++ '\n' :: ']' :: []) rfl).elim

/- ### Runs of creates -/

theorem codesOf_append (st : Store) (r : URLRecord) :
    codesOf (st ++ [r]) = codesOf st ++ [r.shortCode] := by
  simp [codesOf]

theorem not_mem_codes_of_fresh (st : Store) (c : String)
    (h : containsCode st c = false) : c ∉ codesOf st := fun hc =>
  by rw [(containsCode_iff st c).mpr hc] at h; cases h

theorem createRun_spec (is : List CreateIn) : ∀ st : Store, distinctCodes st →
    distinctCodes (createRun st is).1 ∧
    (∀ x ∈ (createRun st is).2, x ∉ codesOf st) ∧
    (createRun st is).2.Nodup := by
  induction is with
  | nil =>
    intro st hd
    exact ⟨hd, by simp [createRun], by simp [createRun]⟩
  | cons i is ih =>
    intro st hd
    rcases createURLHandler_spec st i.body i.env with
      ⟨hb, he⟩ | ⟨hb, he⟩ | ⟨u, hb, hu, hv, he⟩ | ⟨u, hb, hu, hv, hg, he⟩ |
      ⟨u, c, hb, hu, hv, hg, hs, he⟩ | ⟨u, c, hb, hu, hv, hg, hs, he⟩
    · simp only [createRun, he, errorResponse]
      exact ih st hd
    · simp only [createRun, he, errorResponse]
      exact ih st hd
    · simp only [createRun, he, errorResponse]
      exact ih st hd
    · simp only [createRun, he]
      refine ⟨hd, by simp, by simp⟩
    · have hfresh := genCode_fresh st i.env.draws c hg
      have hd2 : distinctCodes (st ++ [⟨c, u, i.env.now, 0⟩]) :=
        distinct_append_fresh st _ hd hfresh
      obtain ⟨d1, d2, d3⟩ := ih (st ++ [⟨c, u, i.env.now, 0⟩]) hd2
      simp only [createRun, he]
      refine ⟨d1, ?_, ?_⟩
      · intro x hx
        rcases List.mem_cons.mp hx with hxc | hxr
        · subst hxc
          exact not_mem_codes_of_fresh st x hfresh
        · intro hmem
          exact d2 x hxr (by rw [codesOf_append]; exact List.mem_append_left _ hmem)
      · rw [List.nodup_cons]
        refine ⟨fun hc => ?_, d3⟩
        have := d2 c hc
        rw [codesOf_append] at this
        exact this (List.mem_append_right _ (List.mem_singleton.mpr rfl))
    · have hfresh := genCode_fresh st i.env.draws c hg
      have hd2 : distinctCodes (st ++ [⟨c, u, i.env.now, 0⟩]) :=
        distinct_append_fresh st _ hd hfresh
      obtain ⟨d1, d2, d3⟩ := ih (st ++ [⟨c, u, i.env.now, 0⟩]) hd2
      simp only [createRun, he, errorResponse]
      refine ⟨d1, ?_, d3⟩
      intro x hx hmem
      exact d2 x hx (by rw [codesOf_append]; exact List.mem_append_left _ hmem)

/- ### The invariant over reachable states -/

theorem reachable_distinct (st : Store) (h : Reachable st) : distinctCodes st := by
  induction h with
  | init => simp [distinctCodes, codesOf]
  | step fb req env resp h hstep ih =>
    exact rootHandler_preserves_distinct fb _ req env _ resp hstep ih

theorem saturatedStore_covers (i j : Nat) (hi : i < 50) (hj : j < 50) :
    containsCode saturatedStore (sampleCode (i, j)) = true := by
  rw [containsCode_iff]
  simp only [codesOf, saturatedStore, List.mem_map]
  refine ⟨⟨sampleCode (i, j), "", "", 0⟩, ?_, rfl⟩
  simp only [List.mem_flatMap, List.mem_map, List.mem_range]
  exact ⟨i, hi, ⟨j, hj, rfl⟩⟩

theorem redirectIterate_at (pre post : Store) (code : String) :
    ∀ (k : Nat) (r : URLRecord), (∀ x ∈ pre, x.shortCode ≠ code) → r.shortCode = code →
    redirectIterate k (pre ++ r :: post) code =
      pre ++ { r with usageCount := r.usageCount + (k : Int) } :: post := by
  intro k
  induction k with
  | zero =>
    intro r hpre hr
    simp [redirectIterate]
  | succ k ih =>
    intro r hpre hr
    rw [redirectIterate, redirectOnce, incrementFirst_at pre post r code hpre hr]
    rw [ih { r with usageCount := r.usageCount + 1 } hpre hr]
    congr 2
    push_cast
    ring_nf

/- ### Claim theorems -/

/-- C1: short-code uniqueness. In every reachable state of the store the short
codes are pairwise distinct (create only appends a code the generator verified
absent, and no other operation adds or changes a code), and any sequence of
creates from a reachable state returns pairwise-distinct codes. -/
theorem uniqueness_invariant :
    (∀ st : Store, Reachable st → (codesOf st).Nodup) ∧
    (∀ (st : Store) (is : List CreateIn), Reachable st →
      (createRun st is).2.Nodup ∧ (codesOf (createRun st is).1).Nodup) := by
  refine ⟨fun st h => reachable_distinct st h, fun st is h => ?_⟩
  obtain ⟨d1, _, d3⟩ := createRun_spec is st (reachable_distinct st h)
  exact ⟨d3, d1⟩

/-- C1 witness: the empty boot store is reachable and a concrete two-create
run returns distinct codes. -/
theorem uniqueness_invariant_witness :
    Reachable ([] : Store) ∧
    (codesOf ([] : Store)).Nodup ∧
    (createRun []
      [⟨some "https://a.example/x", ⟨[(0, 0)], "2024-01-01T00:00:00Z", true, true⟩⟩,
       ⟨some "https://a.example/y", ⟨[(0, 0), (1, 1)], "2024-01-01T00:00:01Z", true, true⟩⟩]).2.Nodup :=
  ⟨Reachable.init, (uniqueness_invariant.1 [] Reachable.init),
   (uniqueness_invariant.2 []
      [⟨some "https://a.example/x", ⟨[(0, 0)], "2024-01-01T00:00:00Z", true, true⟩⟩,
       ⟨some "https://a.example/y", ⟨[(0, 0), (1, 1)], "2024-01-01T00:00:01Z", true, true⟩⟩]
      Reachable.init).1⟩

/-- C2 counterexample: the claim requires the url to "parse as a request URI
with scheme and host"; `"/relative/path"` has neither, so by the claim the
create must fail with 400 — yet the code validates it with
`url.ParseRequestURI` (which accepts rooted paths) and returns 201. -/
theorem create_validation_counterexample :
    ¬ requestURIHasSchemeAndHost "/relative/path" ∧
    createURLHandler [] (some "/relative/path")
        { draws := [(0, 0)], now := "t", saveOk := true, encodeOk := true } =
      some ([⟨"quick-fox", "/relative/path", "t", 0⟩],
            { status := 201, body := .jsonKV "short_code" "quick-fox" }) := by
  constructor
  · rintro ⟨g, hg, hs, hh⟩
    have hp : goParseRequestURI "/relative/path".data =
        some { pathRaw := "/relative/path" } := by decide
    rw [hp] at hg
    cases hg
    exact hs rfl
  · decide

/-- C2 (amended): POST /api/urls responds 400 with a JSON error exactly when
the body is malformed ("Invalid request body"), the url is empty ("URL is
required"), or `url.ParseRequestURI` rejects the url ("Invalid URL format");
contrary to the original claim, that validation does not require a scheme
and a host — a rooted path such as "/relative/path", which has neither,
passes it (see the counterexample); any other body proceeds to create and
returns 201 with the new short code when the generator terminates and the
file write succeeds. -/
theorem create_validation (st : Store) (env : Env) :
    (createURLHandler st none env = some (st, errorResponse "Invalid request body" 400)) ∧
    (createURLHandler st (some "") env = some (st, errorResponse "URL is required" 400)) ∧
    (∀ u, u ≠ "" → parseRequestURIOk u = false →
      createURLHandler st (some u) env = some (st, errorResponse "Invalid URL format" 400)) ∧
    (∀ u st' resp, createURLHandler st (some u) env = some (st', resp) →
      resp.status = 400 → u = "" ∨ parseRequestURIOk u = false) ∧
    (∀ u c, u ≠ "" → parseRequestURIOk u = true → genCode st env.draws = some c →
      env.saveOk = true →
      createURLHandler st (some u) env =
        some (st ++ [⟨c, u, env.now, 0⟩],
              { status := 201, body := .jsonKV "short_code" c })) := by
  refine ⟨rfl, by simp [createURLHandler], ?_, ?_, ?_⟩
  · intro u hu hv
    simp [createURLHandler, hu, hv]
  · intro u st' resp h hstat
    rcases createURLHandler_spec st (some u) env with
      ⟨hb, he⟩ | ⟨hb, he⟩ | ⟨u', hb, hu, hv, he⟩ | ⟨u', hb, hu, hv, hg, he⟩ |
      ⟨u', c, hb, hu, hv, hg, hs, he⟩ | ⟨u', c, hb, hu, hv, hg, hs, he⟩
    · cases hb
    · rw [Option.some.injEq] at hb
      exact Or.inl hb
    · rw [Option.some.injEq] at hb
      subst hb
      exact Or.inr hv
    · rw [he] at h; cases h
    · rw [he] at h
      rw [Option.some.injEq, Prod.mk.injEq] at h
      rw [← h.2] at hstat
      cases hstat
    · rw [he] at h
      rw [Option.some.injEq, Prod.mk.injEq] at h
      rw [← h.2] at hstat
      cases hstat
  · intro u c hu hv hg hs
    simp [createURLHandler, hu, hv, hg, hs]

/-- C2 witness: the boundary vectors of the test suite — an invalid url is
rejected with the exact message, a valid one creates and returns 201. -/
theorem create_validation_witness :
    ("not-a-valid-url" ≠ "" ∧ parseRequestURIOk "not-a-valid-url" = false ∧
      createURLHandler [] (some "not-a-valid-url") ⟨[(0, 0)], "t", true, true⟩ =
        some ([], errorResponse "Invalid URL format" 400)) ∧
    ("https://example.com/a-very-long-url" ≠ "" ∧
      parseRequestURIOk "https://example.com/a-very-long-url" = true ∧
      genCode [] [(0, 0)] = some "quick-fox" ∧
      createURLHandler [] (some "https://example.com/a-very-long-url")
          ⟨[(0, 0)], "t", true, true⟩ =
        some ([⟨"quick-fox", "https://example.com/a-very-long-url", "t", 0⟩],
              { status := 201, body := .jsonKV "short_code" "quick-fox" })) :=
  ⟨⟨by decide, by decide,
    (create_validation [] ⟨[(0, 0)], "t", true, true⟩).2.2.1 "not-a-valid-url"
      (by decide) (by decide)⟩,
   ⟨by decide, by decide, by decide,
    (create_validation [] ⟨[(0, 0)], "t", true, true⟩).2.2.2.2
      "https://example.com/a-very-long-url" "quick-fox"
      (by decide) (by decide) (by decide) rfl⟩⟩

/-- C3: a create whose url passes validation appends exactly one record at the
end — the submitted url, zero usage, the current UTC RFC 3339 time string —
responds 201 with that record's code, the code is an adjective-noun pair from
the fixed lists (hence matches the pattern) and was absent before, and a
subsequent list includes the record. -/
theorem create_success_postcondition (st : Store) (u : String) (env : Env) (c : String)
    (hu : u ≠ "") (hv : parseRequestURIOk u = true)
    (hdr : ∀ d ∈ env.draws, d.1 < 50 ∧ d.2 < 50)
    (hg : genCode st env.draws = some c) (hs : env.saveOk = true) :
    createURLHandler st (some u) env =
      some (st ++ [⟨c, u, env.now, 0⟩],
            { status := 201, body := .jsonKV "short_code" c }) ∧
    (∃ a ∈ adjectives, ∃ n ∈ nouns, c = a ++ "-" ++ n) ∧
    matchesCodePattern c = true ∧
    containsCode st c = false ∧
    (∀ env' : Env, env'.encodeOk = true →
      getURLsHandler (st ++ [⟨c, u, env.now, 0⟩]) env' =
        (st ++ [⟨c, u, env.now, 0⟩],
         { status := 200, body := .jsonRecords (st ++ [⟨c, u, env.now, 0⟩]) })) ∧
    (⟨c, u, env.now, 0⟩ : URLRecord) ∈ st ++ [⟨c, u, env.now, 0⟩] := by
  obtain ⟨d, hd, hcd⟩ := genCode_mem_draws st env.draws c hg
  obtain ⟨h1, h2⟩ := hdr d hd
  refine ⟨by simp [createURLHandler, hu, hv, hg, hs], ?_, ?_, genCode_fresh st env.draws c hg, ?_, ?_⟩
  · rw [hcd]
    exact sampleCode_shape d h1 h2
  · rw [hcd]
    exact sampleCode_matches d h1 h2
  · intro env' henc
    simp [getURLsHandler, henc]
  · exact List.mem_append_right _ (List.mem_singleton.mpr rfl)

/-- C3 witness: the scenario of the test suite at a fresh store. -/
theorem create_success_postcondition_witness :
    ("https://example.com/a-very-long-url" ≠ "" ∧
     parseRequestURIOk "https://example.com/a-very-long-url" = true ∧
     (∀ d ∈ [((0 : Nat), (0 : Nat))], d.1 < 50 ∧ d.2 < 50) ∧
     genCode [] [(0, 0)] = some "quick-fox" ∧ true = true) ∧
    (matchesCodePattern "quick-fox" = true ∧
     containsCode [] "quick-fox" = false ∧
     (∃ a ∈ adjectives, ∃ n ∈ nouns, "quick-fox" = a ++ "-" ++ n)) :=
  ⟨⟨by decide, by decide, by decide, by decide, rfl⟩,
   (create_success_postcondition [] "https://example.com/a-very-long-url"
      ⟨[(0, 0)], "2024-01-01T00:00:00Z", true, true⟩ "quick-fox"
      (by decide) (by decide) (by decide) (by decide) rfl).2.2.1,
   (create_success_postcondition [] "https://example.com/a-very-long-url"
      ⟨[(0, 0)], "2024-01-01T00:00:00Z", true, true⟩ "quick-fox"
      (by decide) (by decide) (by decide) (by decide) rfl).2.2.2.1,
   (create_success_postcondition [] "https://example.com/a-very-long-url"
      ⟨[(0, 0)], "2024-01-01T00:00:00Z", true, true⟩ "quick-fox"
      (by decide) (by decide) (by decide) (by decide) rfl).2.1⟩

theorem slash_append_data (code : String) : ("/" ++ code).data = '/' :: code.data := by
  simp

/-- C4: when a record with the requested short code exists (first match at a
unique position), any request to /{short_code} responds 302 with Location set
to that record's long_url and bumps exactly that record's usage_count by one;
K iterated redirects bump it by exactly K; with no matching record the
request falls through to the static fallback response unchanged. -/
theorem redirect_contract (fb : HResponse) (pre post : Store) (r : URLRecord)
    (m : String) (bdy : Option String) (env : Env) (code : String)
    (hpre : ∀ x ∈ pre, x.shortCode ≠ code) (hr : r.shortCode = code)
    (hcode : code ≠ "")
    (hapi : goStartsWith ('/' :: code.data) apiPrefix = false)
    (hs : env.saveOk = true) :
    rootHandler fb (pre ++ r :: post) { method := m, path := "/" ++ code, body := bdy } env =
      some (pre ++ { r with usageCount := r.usageCount + 1 } :: post,
            { status := 302, location := some r.longURL, body := .redirectNote }) ∧
    (∀ k : Nat, redirectIterate k (pre ++ r :: post) code =
      pre ++ { r with usageCount := r.usageCount + (k : Int) } :: post) ∧
    (∀ (st₀ : Store) (m₀ : String) (b₀ : Option String),
      incrementFirst st₀ code = none →
      rootHandler fb st₀ { method := m₀, path := "/" ++ code, body := b₀ } env =
        some (st₀, fb)) := by
  have hdata : ("/" ++ code).data = '/' :: code.data := slash_append_data code
  have hstrip : String.mk (stripLeadingSlash ('/' :: code.data)) = code := rfl
  refine ⟨?_, fun k => redirectIterate_at pre post code k r hpre hr, ?_⟩
  · rw [rootHandler]
    simp only [hdata, hapi, Bool.false_eq_true, if_false, stripLeadingSlash, hstrip]
    rw [if_pos (by simp [hcode]), incrementFirst_at pre post r code hpre hr, hs]
    simp
  · intro st₀ m₀ b₀ hnone
    rw [rootHandler]
    simp only [hdata, hapi, Bool.false_eq_true, if_false, stripLeadingSlash, hstrip]
    rw [if_pos (by simp [hcode]), hnone]

/-- C4 witness: the redirect scenario of the test suite. -/
theorem redirect_contract_witness :
    ((∀ x ∈ ([] : Store), x.shortCode ≠ "test-code") ∧
     goStartsWith ('/' :: "test-code".data) apiPrefix = false ∧
     incrementFirst ([] : Store) "missing" = none) ∧
    rootHandler { status := 404, body := .fromStatic }
        [⟨"test-code", "https://example.com/redirect-target", "t", 0⟩]
        { method := "GET", path := "/" ++ "test-code", body := none }
        ⟨[], "t", true, true⟩ =
      some ([⟨"test-code", "https://example.com/redirect-target", "t", 1⟩],
            { status := 302, location := some "https://example.com/redirect-target",
              body := .redirectNote }) :=
  ⟨⟨fun x hx => absurd hx (List.not_mem_nil x), by decide, rfl⟩, by
    have h := (redirect_contract { status := 404, body := .fromStatic } []
      [] ⟨"test-code", "https://example.com/redirect-target", "t", 0⟩
      "GET" none ⟨[], "t", true, true⟩ "test-code"
      (fun x hx => absurd hx (List.not_mem_nil x)) rfl (by decide) (by decide) rfl).1
    simpa using h⟩

/-- C5: when the backing-file write fails, create and redirect respond 500
with a JSON error body while the in-memory store keeps the mutation — the
appended record, or the incremented usage count — with no rollback. -/
theorem persistence_failure_nonatomic (st pre post : Store) (r : URLRecord) (env : Env)
    (hsave : env.saveOk = false) :
    (∀ u c, u ≠ "" → parseRequestURIOk u = true → genCode st env.draws = some c →
      createURLHandler st (some u) env =
        some (st ++ [⟨c, u, env.now, 0⟩], errorResponse "Failed to save URL record" 500)) ∧
    (∀ (fb : HResponse) (m : String) (bdy : Option String) (code : String),
      (∀ x ∈ pre, x.shortCode ≠ code) → r.shortCode = code → code ≠ "" →
      goStartsWith ('/' :: code.data) apiPrefix = false →
      rootHandler fb (pre ++ r :: post) { method := m, path := "/" ++ code, body := bdy } env =
        some (pre ++ { r with usageCount := r.usageCount + 1 } :: post,
              errorResponse "Failed to update URL data" 500)) := by
  constructor
  · intro u c hu hv hg
    simp [createURLHandler, hu, hv, hg, hsave]
  · intro fb m bdy code hpre hr hcode hapi
    have hdata : ("/" ++ code).data = '/' :: code.data := slash_append_data code
    have hstrip : String.mk (stripLeadingSlash ('/' :: code.data)) = code := rfl
    rw [rootHandler]
    simp only [hdata, hapi, Bool.false_eq_true, if_false, stripLeadingSlash, hstrip]
    rw [if_pos (by simp [hcode]), incrementFirst_at pre post r code hpre hr, hsave]
    simp

/-- C5 witness: a failed save after a create still leaves the record appended,
and a failed save after a redirect still leaves the count incremented. -/
theorem persistence_failure_nonatomic_witness :
    ("https://example.com/a-very-long-url" ≠ "" ∧
     parseRequestURIOk "https://example.com/a-very-long-url" = true ∧
     genCode [] [(0, 0)] = some "quick-fox") ∧
    createURLHandler [] (some "https://example.com/a-very-long-url")
        ⟨[(0, 0)], "t", false, true⟩ =
      some ([⟨"quick-fox", "https://example.com/a-very-long-url", "t", 0⟩],
            errorResponse "Failed to save URL record" 500) ∧
    rootHandler { status := 404, body := .fromStatic }
        [⟨"test-code", "https://example.com/redirect-target", "t", 0⟩]
        { method := "GET", path := "/" ++ "test-code", body := none }
        ⟨[], "t", false, true⟩ =
      some ([⟨"test-code", "https://example.com/redirect-target", "t", 1⟩],
            errorResponse "Failed to update URL data" 500) :=
  ⟨⟨by decide, by decide, by decide⟩,
   by
    have h := (persistence_failure_nonatomic [] [] [] ⟨"", "", "", 0⟩ ⟨[(0, 0)], "t", false, true⟩
      rfl).1 "https://example.com/a-very-long-url" "quick-fox" (by decide) (by decide)
      (by decide)
    simpa using h,
   by
    have h := (persistence_failure_nonatomic []
      [] [] ⟨"test-code", "https://example.com/redirect-target", "t", 0⟩
      ⟨[], "t", false, true⟩ rfl).2 { status := 404, body := .fromStatic } "GET" none
      "test-code" (fun x hx => absurd hx (List.not_mem_nil x)) rfl (by decide) (by decide)
    simpa using h⟩

/-- C6: writing the collection as `saveURLs` does (pretty-printed JSON array)
and parsing the output as startup does reproduces the identical collection —
same codes, urls, counts, timestamps, same insertion order — for every
collection whose counts fit Go's 64-bit int. -/
theorem save_load_roundtrip (l : List URLRecord)
    (hrange : ∀ r ∈ l, -(2 ^ 63) ≤ r.usageCount ∧ r.usageCount < 2 ^ 63) :
    loadJSON (saveJSON l) = some l :=
  loadJSON_saveJSON l hrange

/-- C6 witness: round trip of a concrete two-record store whose strings
exercise quoting, escaping and non-ASCII text. -/
theorem save_load_roundtrip_witness :
    (∀ r ∈ ([⟨"test-code", "https://e.com/x?a=1&b=<2>", "2024-01-01T00:00:00Z", 5⟩,
             ⟨"other-code", "https://example.com/\"q\"\\z", "2024-01-02T03:04:05Z", -7⟩] :
        List URLRecord), -(2 ^ 63) ≤ r.usageCount ∧ r.usageCount < 2 ^ 63) ∧
    loadJSON (saveJSON
      [⟨"test-code", "https://e.com/x?a=1&b=<2>", "2024-01-01T00:00:00Z", 5⟩,
       ⟨"other-code", "https://example.com/\"q\"\\z", "2024-01-02T03:04:05Z", -7⟩]) =
      some [⟨"test-code", "https://e.com/x?a=1&b=<2>", "2024-01-01T00:00:00Z", 5⟩,
            ⟨"other-code", "https://example.com/\"q\"\\z", "2024-01-02T03:04:05Z", -7⟩] :=
  ⟨by decide,
   save_load_roundtrip
     [⟨"test-code", "https://e.com/x?a=1&b=<2>", "2024-01-01T00:00:00Z", 5⟩,
      ⟨"other-code", "https://example.com/\"q\"\\z", "2024-01-02T03:04:05Z", -7⟩]
     (by decide)⟩

/-- C7: strict routing priority — an API-prefixed path always dispatches by
method (GET to list, POST to create, anything else to 405) independently of
the static fallback; a non-API path with a matching short code is handled by
the redirect branch (302 or 500), also independently of the fallback; only a
non-API path with no match (or the bare "/") is served by the fallback. -/
theorem routing_priority (fb fb' : HResponse) (st : Store) (req : GoRequest) (env : Env) :
    (goStartsWith req.path.data apiPrefix = true →
      (req.method = "GET" → rootHandler fb st req env = some (getURLsHandler st env)) ∧
      (req.method = "POST" → rootHandler fb st req env = createURLHandler st req.body env) ∧
      (req.method ≠ "GET" → req.method ≠ "POST" →
        rootHandler fb st req env = some (st, errorResponse "Method Not Allowed" 405)) ∧
      rootHandler fb st req env = rootHandler fb' st req env) ∧
    (goStartsWith req.path.data apiPrefix = false →
      ∀ p, incrementFirst st (String.mk (stripLeadingSlash req.path.data)) = some p →
        String.mk (stripLeadingSlash req.path.data) ≠ "" →
        rootHandler fb st req env =
          some (p.1, if env.saveOk then
                       { status := 302, location := some p.2, body := .redirectNote }
                     else errorResponse "Failed to update URL data" 500) ∧
        rootHandler fb st req env = rootHandler fb' st req env) ∧
    (goStartsWith req.path.data apiPrefix = false →
      (String.mk (stripLeadingSlash req.path.data) = "" ∨
        incrementFirst st (String.mk (stripLeadingSlash req.path.data)) = none) →
      rootHandler fb st req env = some (st, fb)) := by
  refine ⟨fun hapi => ⟨?_, ?_, ?_, ?_⟩, fun hapi p hp hne => ⟨?_, ?_⟩, fun hapi hmiss => ?_⟩
  · intro hget
    simp [rootHandler, hapi, hget]
  · intro hpost
    by_cases hget : req.method = "GET"
    · rw [hget] at hpost
      exact absurd hpost (by decide)
    · simp [rootHandler, hapi, hget, hpost]
  · intro hget hpost
    simp [rootHandler, hapi, hget, hpost]
  · by_cases hget : req.method = "GET"
    · simp [rootHandler, hapi, hget]
    · by_cases hpost : req.method = "POST"
      · simp [rootHandler, hapi, hget, hpost]
      · simp [rootHandler, hapi, hget, hpost]
  · rw [rootHandler]
    simp only [hapi, Bool.false_eq_true, if_false]
    rw [if_pos (by simp [hne]), hp]
    cases hsv : env.saveOk <;> simp
  · rw [rootHandler, rootHandler]
    simp only [hapi, Bool.false_eq_true, if_false]
    rw [if_pos (by simp [hne]), if_pos (by simp [hne]), hp]
  · rw [rootHandler]
    simp only [hapi, Bool.false_eq_true, if_false]
    rcases hmiss with hemp | hnone
    · rw [if_neg (by simp [hemp])]
    · by_cases hemp : String.mk (stripLeadingSlash req.path.data) = ""
      · rw [if_neg (by simp [hemp])]
      · rw [if_pos (by simp [hemp]), hnone]

/-- C7 witness: GET /api/urls lists even when a record's code is the literal
"api/urls" path remainder, and an unknown code falls through to the fallback. -/
theorem routing_priority_witness :
    (goStartsWith "/api/urls".data apiPrefix = true ∧
     rootHandler { status := 404, body := .fromStatic }
       [⟨"api/urls", "https://example.com/trap", "t", 0⟩]
       { method := "GET", path := "/api/urls", body := none } ⟨[], "t", true, true⟩ =
       some (getURLsHandler [⟨"api/urls", "https://example.com/trap", "t", 0⟩]
         ⟨[], "t", true, true⟩)) ∧
    (goStartsWith "/non-existent-code".data apiPrefix = false ∧
     rootHandler { status := 404, body := .fromStatic } []
       { method := "GET", path := "/non-existent-code", body := none }
       ⟨[], "t", true, true⟩ =
       some ([], { status := 404, body := .fromStatic })) :=
  ⟨⟨by decide,
    ((routing_priority { status := 404, body := .fromStatic }
       { status := 404, body := .fromStatic }
       [⟨"api/urls", "https://example.com/trap", "t", 0⟩]
       { method := "GET", path := "/api/urls", body := none }
       ⟨[], "t", true, true⟩).1 (by decide)).1 rfl⟩,
   ⟨by decide,
    (routing_priority { status := 404, body := .fromStatic }
       { status := 404, body := .fromStatic } []
       { method := "GET", path := "/non-existent-code", body := none }
       ⟨[], "t", true, true⟩).2.2 (by decide) (Or.inr rfl)⟩⟩

/-- C8 counterexample: the claim calls the list endpoint's 500 a persistence
failure, but the handler performs no file write — with the file write failing
and response encoding working it still answers 200, and its 500 arises from
an encoding failure with the file intact. -/
theorem list_contract_counterexample : ¬ listFailureIsPersistence := fun h =>
  absurd ((h [] ⟨[], "t", false, true⟩).mpr rfl) (by decide)

/-- C8 (amended): GET /api/urls answers 200 with every stored record in
insertion order from a copy of the collection, leaving the store unchanged;
its failure mode is a failure to encode the JSON response, reported as 500
with a JSON error body; the handler never writes the backing file. -/
theorem list_contract (st : Store) (env : Env) :
    (env.encodeOk = true →
      getURLsHandler st env = (st, { status := 200, body := .jsonRecords st })) ∧
    (env.encodeOk = false →
      getURLsHandler st env = (st, errorResponse "Failed to encode URL list" 500)) ∧
    (getURLsHandler st env).1 = st := by
  refine ⟨fun he => by simp [getURLsHandler, he], fun he => by simp [getURLsHandler, he], ?_⟩
  cases he : env.encodeOk <;> simp [getURLsHandler, he]

/-- C8 witness: both outcomes at a concrete store. -/
theorem list_contract_witness :
    getURLsHandler [⟨"test-code", "https://example.com/get-urls-test", "t", 5⟩]
        ⟨[], "t", true, true⟩ =
      ([⟨"test-code", "https://example.com/get-urls-test", "t", 5⟩],
       { status := 200,
         body := .jsonRecords [⟨"test-code", "https://example.com/get-urls-test", "t", 5⟩] }) ∧
    getURLsHandler [⟨"test-code", "https://example.com/get-urls-test", "t", 5⟩]
        ⟨[], "t", true, false⟩ =
      ([⟨"test-code", "https://example.com/get-urls-test", "t", 5⟩],
       errorResponse "Failed to encode URL list" 500) :=
  ⟨(list_contract [⟨"test-code", "https://example.com/get-urls-test", "t", 5⟩]
      ⟨[], "t", true, true⟩).1 rfl,
   (list_contract [⟨"test-code", "https://example.com/get-urls-test", "t", 5⟩]
      ⟨[], "t", true, false⟩).2.1 rfl⟩

/-- C9: the generator is a rejection-sampling loop — whenever some of the
2,500 pairs is still free there is a draw sequence on which it terminates,
whatever it returns is absent from the store, and when every pair is taken
no finite in-range draw sequence makes it return (the Go loop runs forever). -/
theorem generator_termination :
    (∀ st : Store, (∃ i j, i < 50 ∧ j < 50 ∧ containsCode st (sampleCode (i, j)) = false) →
      ∃ (ds : List (Nat × Nat)) (c : String), genCode st ds = some c) ∧
    (∀ (st : Store) (ds : List (Nat × Nat)) (c : String),
      genCode st ds = some c → containsCode st c = false) ∧
    (∀ st : Store, (∀ i j, i < 50 → j < 50 → containsCode st (sampleCode (i, j)) = true) →
      ∀ ds : List (Nat × Nat), (∀ d ∈ ds, d.1 < 50 ∧ d.2 < 50) → genCode st ds = none) := by
  refine ⟨?_, fun st ds c h => genCode_fresh st ds c h, ?_⟩
  · rintro st ⟨i, j, _, _, hfree⟩
    exact ⟨[(i, j)], sampleCode (i, j), by simp [genCode, hfree]⟩
  · intro st hall ds hds
    induction ds with
    | nil => rfl
    | cons d rest ih =>
      obtain ⟨h1, h2⟩ := hds d (List.mem_cons_self _ _)
      rw [genCode, if_pos (by rw [show d = (d.1, d.2) from rfl]; exact hall d.1 d.2 h1 h2)]
      exact ih (fun x hx => hds x (List.mem_cons_of_mem _ hx))

/-- C9 witness: on the empty store the pair (0,0) is free and one draw
terminates with a fresh code; on the saturated store owning all 2,500 pairs
no draw sequence returns. -/
theorem generator_termination_witness :
    (∃ i j, i < 50 ∧ j < 50 ∧ containsCode ([] : Store) (sampleCode (i, j)) = false) ∧
    (∃ ds c, genCode ([] : Store) ds = some c) ∧
    containsCode ([] : Store) "quick-fox" = false ∧
    genCode saturatedStore [(0, 0)] = none :=
  ⟨⟨0, 0, by decide, by decide, rfl⟩,
   generator_termination.1 [] ⟨0, 0, by decide, by decide, rfl⟩,
   generator_termination.2.1 [] [(0, 0)] "quick-fox" (by decide),
   generator_termination.2.2 saturatedStore
     (fun i j hi hj => saturatedStore_covers i j hi hj) [(0, 0)]
     (by decide)⟩

/-- C10 (implicit): the redirect branch never inspects the HTTP method or
body — any two requests to the same non-API path behave identically, and a
POST or DELETE to a matching short code increments and redirects exactly as
a GET does. -/
theorem redirect_method_agnostic (fb : HResponse) (st : Store) (env : Env) (p : String)
    (hapi : goStartsWith p.data apiPrefix = false) :
    (∀ m₁ m₂ b₁ b₂, rootHandler fb st ⟨m₁, p, b₁⟩ env = rootHandler fb st ⟨m₂, p, b₂⟩ env) ∧
    (∀ (m : String) (bdy : Option String) (pre post : Store) (r : URLRecord) (code : String),
      st = pre ++ r :: post → (∀ x ∈ pre, x.shortCode ≠ code) → r.shortCode = code →
      code ≠ "" → p = "/" ++ code → env.saveOk = true →
      rootHandler fb st ⟨m, p, bdy⟩ env =
        some (pre ++ { r with usageCount := r.usageCount + 1 } :: post,
              { status := 302, location := some r.longURL, body := .redirectNote })) := by
  constructor
  · intro m₁ m₂ b₁ b₂
    rw [rootHandler, rootHandler]
    simp only [hapi, Bool.false_eq_true, if_false]
  · intro m bdy pre post r code hst hpre hr hcode hp hs
    subst hst
    subst hp
    exact (redirect_contract fb pre post r m bdy env code hpre hr hcode
      (by rw [← slash_append_data code]; exact hapi) hs).1

/-- C10 witness: a DELETE to /test-code mutates and redirects exactly as the
GET of the redirect scenario. -/
theorem redirect_method_agnostic_witness :
    goStartsWith "/test-code".data apiPrefix = false ∧
    rootHandler { status := 404, body := .fromStatic }
        [⟨"test-code", "https://example.com/redirect-target", "t", 0⟩]
        ⟨"DELETE", "/test-code", none⟩ ⟨[], "t", true, true⟩ =
      rootHandler { status := 404, body := .fromStatic }
        [⟨"test-code", "https://example.com/redirect-target", "t", 0⟩]
        ⟨"GET", "/test-code", none⟩ ⟨[], "t", true, true⟩ ∧
    rootHandler { status := 404, body := .fromStatic }
        [⟨"test-code", "https://example.com/redirect-target", "t", 0⟩]
        ⟨"DELETE", "/test-code", none⟩ ⟨[], "t", true, true⟩ =
      some ([⟨"test-code", "https://example.com/redirect-target", "t", 1⟩],
            { status := 302, location := some "https://example.com/redirect-target",
              body := .redirectNote }) := by
  refine ⟨by decide, ?_, ?_⟩
  · exact (redirect_method_agnostic { status := 404, body := .fromStatic }
      [⟨"test-code", "https://example.com/redirect-target", "t", 0⟩]
      ⟨[], "t", true, true⟩ "/test-code" (by decide)).1 "DELETE" "GET" none none
  · have h := (redirect_method_agnostic { status := 404, body := .fromStatic }
      [⟨"test-code", "https://example.com/redirect-target", "t", 0⟩]
      ⟨[], "t", true, true⟩ "/test-code" (by decide)).2 "DELETE" none
      [] [] ⟨"test-code", "https://example.com/redirect-target", "t", 0⟩ "test-code"
      (by simp) (fun x hx => absurd hx (List.not_mem_nil x)) rfl (by decide) rfl rfl
    simpa using h

